import Mathlib

/-!
Shallow embedding of the zpay payment order issuance and reconciliation
engine: the canonical signer (`getVerifyParams` + MD5), the order ledger,
the order issuer (`POST /api/checkout/providers/zpay/url`), the redirect
regenerator (`POST /api/checkout/providers/zpay/repay`) and the webhook
reconciler (`GET /api/checkout/providers/zpay/webhook`).

Modelling decisions, stated once here:
* JS strings are Lean `String`s. `String.prototype.localeCompare` (the
  sort comparator in `getVerifyParams`) is the locale-aware root collation,
  modelled by `localeLt`: canonical decomposition on the code points
  involved, case-folded primary weights with punctuation before digits
  before letters, and case resolved at a lower level, with
  primary-ignorable combining marks. The signer over this comparator is
  `zpaySignLocale`. The endpoints use the code-point signer `zpaySign`,
  proved equal to `zpaySignLocale` on every mapping whose keys consist of
  lowercase ASCII letters and underscores (`zpaySignLocale_eq_plain`) —
  which covers every key set this system signs (`expectedSign_locale`,
  `issuerSign_locale`); the two differ on arbitrary mappings (mixed-case
  or canonically equivalent keys).
* `crypto.createHash("md5")` is the standard MD5 digest, implemented below
  over byte lists as Nat arithmetic mod 2^32.
* `parseFloat` on the plain decimal amount strings exchanged with the
  gateway is modelled as exact rational parsing (sign, digits, optional
  fraction); non-numeric input maps to `none` (the NaN case).
* JS `Date` values are modelled as civil datetimes; `setMonth`/`setFullYear`
  keep the day-of-month and roll an overflowing day into the following
  month, exactly as JS date normalization does. Timestamp comparison
  (`gt` on TIMESTAMPTZ columns) is chronological order, realised through
  the injective encoding `DateTime.enc`.
* The database is the `zpay_transactions` table: a list of rows. The
  supabase query builders are modelled by list filtering; `.single()`
  succeeds exactly when the filter yields one row; a conditional
  `.update(..).eq("status","pending")` maps every matching row and reports
  the affected rows.
-/

/-- UTF-8 encoding of a single code point, as a list of byte values. -/
def encodeChar (c : Char) : List Nat :=
  if c.toNat < 128 then [c.toNat]
  else if c.toNat < 2048 then [192 + c.toNat / 64, 128 + c.toNat % 64]
  else if c.toNat < 65536 then
    [224 + c.toNat / 4096, 128 + (c.toNat / 64) % 64, 128 + c.toNat % 64]
  else
    [240 + c.toNat / 262144, 128 + (c.toNat / 4096) % 64,
     128 + (c.toNat / 64) % 64, 128 + c.toNat % 64]

/-- UTF-8 bytes of a string. -/
def utf8Bytes (s : String) : List Nat :=
  s.data.flatMap encodeChar

/-- MD5 round-constant table (the standard `K` table). -/
def md5K : List Nat :=
  [0xd76aa478, 0xe8c7b756, 0x242070db, 0xc1bdceee,
   0xf57c0faf, 0x4787c62a, 0xa8304613, 0xfd469501,
   0x698098d8, 0x8b44f7af, 0xffff5bb1, 0x895cd7be,
   0x6b901122, 0xfd987193, 0xa679438e, 0x49b40821,
   0xf61e2562, 0xc040b340, 0x265e5a51, 0xe9b6c7aa,
   0xd62f105d, 0x02441453, 0xd8a1e681, 0xe7d3fbc8,
   0x21e1cde6, 0xc33707d6, 0xf4d50d87, 0x455a14ed,
   0xa9e3e905, 0xfcefa3f8, 0x676f02d9, 0x8d2a4c8a,
   0xfffa3942, 0x8771f681, 0x6d9d6122, 0xfde5380c,
   0xa4beea44, 0x4bdecfa9, 0xf6bb4b60, 0xbebfbc70,
   0x289b7ec6, 0xeaa127fa, 0xd4ef3085, 0x04881d05,
   0xd9d4d039, 0xe6db99e5, 0x1fa27cf8, 0xc4ac5665,
   0xf4292244, 0x432aff97, 0xab9423a7, 0xfc93a039,
   0x655b59c3, 0x8f0ccc92, 0xffeff47d, 0x85845dd1,
   0x6fa87e4f, 0xfe2ce6e0, 0xa3014314, 0x4e0811a1,
   0xf7537e82, 0xbd3af235, 0x2ad7d2bb, 0xeb86d391]

/-- MD5 per-round left-rotation amounts (the standard `s` table). -/
def md5S : List Nat :=
  [7, 12, 17, 22, 7, 12, 17, 22, 7, 12, 17, 22, 7, 12, 17, 22,
   5, 9, 14, 20, 5, 9, 14, 20, 5, 9, 14, 20, 5, 9, 14, 20,
   4, 11, 16, 23, 4, 11, 16, 23, 4, 11, 16, 23, 4, 11, 16, 23,
   6, 10, 15, 21, 6, 10, 15, 21, 6, 10, 15, 21, 6, 10, 15, 21]

/-- Addition on 32-bit words represented as `Nat`. -/
def add32 (a b : Nat) : Nat := (a + b) % 4294967296

/-- Left rotation of a 32-bit word. -/
def rotl32 (x s : Nat) : Nat :=
  (x * 2 ^ s) % 4294967296 + x / 2 ^ (32 - s)

/-- Bitwise complement of a 32-bit word. -/
def not32 (x : Nat) : Nat := 4294967295 - x

/-- Little-endian 32-bit word assembled from bytes `i*4 .. i*4+3` of a block. -/
def md5Word (block : List Nat) (i : Nat) : Nat :=
  block.getD (i * 4) 0 + block.getD (i * 4 + 1) 0 * 256 +
    block.getD (i * 4 + 2) 0 * 65536 + block.getD (i * 4 + 3) 0 * 16777216

/-- One MD5 round: state `(A, B, C, D)`, message words `M`, round index `i`. -/
def md5Round (M : Nat → Nat) (st : Nat × Nat × Nat × Nat) (i : Nat) :
    Nat × Nat × Nat × Nat :=
  let A := st.1
  let B := st.2.1
  let C := st.2.2.1
  let D := st.2.2.2
  let F :=
    if i < 16 then (B &&& C) ||| (not32 B &&& D)
    else if i < 32 then (D &&& B) ||| (not32 D &&& C)
    else if i < 48 then B ^^^ C ^^^ D
    else C ^^^ (B ||| not32 D)
  let g :=
    if i < 16 then i
    else if i < 32 then (5 * i + 1) % 16
    else if i < 48 then (3 * i + 5) % 16
    else (7 * i) % 16
  let F2 := add32 (add32 (add32 F A) (md5K.getD i 0)) (M g)
  (D, add32 B (rotl32 F2 (md5S.getD i 0)), B, C)

/-- Process one 64-byte block into the running MD5 state. -/
def md5Block (st : Nat × Nat × Nat × Nat) (block : List Nat) :
    Nat × Nat × Nat × Nat :=
  let r := (List.range 64).foldl (md5Round (md5Word block)) st
  (add32 st.1 r.1, add32 st.2.1 r.2.1, add32 st.2.2.1 r.2.2.1,
   add32 st.2.2.2 r.2.2.2)

/-- MD5 padding: append `0x80`, zero bytes to 56 mod 64, then the 64-bit
little-endian bit length. -/
def md5Pad (msg : List Nat) : List Nat :=
  let L := msg.length
  let zeros := (119 - L % 64) % 64
  let bitLen := (8 * L) % (2 ^ 64)
  msg ++ 128 :: List.replicate zeros 0 ++
    [bitLen % 256, bitLen / 256 % 256, bitLen / 65536 % 256,
     bitLen / 16777216 % 256, bitLen / 4294967296 % 256,
     bitLen / 1099511627776 % 256, bitLen / 281474976710656 % 256,
     bitLen / 72057594037927936 % 256]

/-- Little-endian byte decomposition of a 32-bit word. -/
def leBytes (w : Nat) : List Nat :=
  [w % 256, w / 256 % 256, w / 65536 % 256, w / 16777216 % 256]

/-- The 16 digest bytes of the MD5 of a byte list. -/
def md5Bytes (msg : List Nat) : List Nat :=
  let st := (List.toChunks 64 (md5Pad msg)).foldl md5Block
    (0x67452301, 0xefcdab89, 0x98badcfe, 0x10325476)
  leBytes st.1 ++ leBytes st.2.1 ++ leBytes st.2.2.1 ++ leBytes st.2.2.2

/-- Lowercase hex digit for a value below 16 (digits, then letters from
`a` at code point 97). -/
def hexDigit (n : Nat) : Char :=
  if n < 10 then Char.ofNat (48 + n) else Char.ofNat (87 + n)

/-- Lowercase hex rendering of one byte. -/
def byteHex (b : Nat) : List Char :=
  [hexDigit (b / 16 % 16), hexDigit (b % 16)]

/-- Lowercase hex MD5 digest of a byte list, as a string. -/
def md5Hex (msg : List Nat) : String :=
  ⟨(md5Bytes msg).flatMap byteHex⟩

/-- Entry-keeping predicate of `getVerifyParams`: the source skips an entry
when `!params[key] || key === "sign" || key === "sign_type"`. -/
def keepParam (kv : String × String) : Bool :=
  kv.2 != "" && kv.1 != "sign" && kv.1 != "sign_type"

/-- Code-point comparison of character lists: the effective key comparator
of the signer on the key sets this system signs, whose field names are
lowercase ASCII; there the `localeCompare` comparator `localeLt` provably
coincides with code-point order (`localeKeyLe_iff_keyLe`). -/
def charsLe : List Char → List Char → Bool
  | [], _ => true
  | _ :: _, [] => false
  | c :: cs, d :: ds =>
    if c < d then true
    else if d < c then false
    else charsLe cs ds

/-- Key order of the signing sort, in code-point form; agrees with the
locale-aware order `localeKeyLe` on plain lowercase keys
(`localeKeyLe_iff_keyLe`). -/
def keyLe (a b : String × String) : Prop :=
  charsLe a.1.data b.1.data = true

instance : DecidableRel keyLe := fun a b =>
  inferInstanceAs (Decidable (charsLe a.1.data b.1.data = true))

/-- The entries that enter the signing string, in signing order: drop
`sign`/`sign_type`/empty-valued entries and sort the rest by key. The
source's `Array.prototype.sort` is a stable sort, so any stable sorting
algorithm realises it; a structurally recursive insertion sort is used. -/
def signEntries (ps : List (String × String)) : List (String × String) :=
  List.insertionSort keyLe (ps.filter keepParam)

/-- Builds the signing string: drop `sign`/`sign_type`/empty-valued entries,
sort the rest by key, join as `key=value` pairs with `&`
(source: `getVerifyParams` in url/route.ts, repay/route.ts and webhook). -/
def getVerifyParams (ps : List (String × String)) : String :=
  String.intercalate "&" ((signEntries ps).map (fun kv => kv.1 ++ "=" ++ kv.2))

/-- The signature token: MD5 of the signing string with the shared secret
appended directly (source: `crypto.createHash("md5").update(str + key)`). -/
def zpaySign (ps : List (String × String)) (key : String) : String :=
  md5Hex (utf8Bytes (getVerifyParams ps ++ key))

/-- Characters of the keys this protocol signs: lowercase ASCII letters
and the underscore. -/
def plainChar (c : Char) : Prop :=
  c.toNat = 95 ∨ (97 ≤ c.toNat ∧ c.toNat ≤ 122)

instance (c : Char) : Decidable (plainChar c) :=
  inferInstanceAs (Decidable (_ ∨ _))

/-- A key all of whose characters are plain. -/
def PlainKey (s : String) : Prop :=
  ∀ c ∈ s.data, plainChar c

instance (s : String) : Decidable (PlainKey s) :=
  inferInstanceAs (Decidable (∀ c ∈ s.data, plainChar c))

/-- Strict lexicographic comparison of weight sequences. -/
def natListLt : List Nat → List Nat → Bool
  | [], [] => false
  | [], _ :: _ => true
  | _ :: _, [] => false
  | a :: as, b :: bs =>
    if a < b then true
    else if b < a then false
    else natListLt as bs

/-- Canonical decomposition of a code point, restricted to the code points
these theorems use: the precomposed é (U+00E9) decomposes to e followed by
the combining acute (U+0301); other characters are left alone
(`localeCompare` compares canonically equivalent strings as equal). -/
def nfdChar (c : Char) : List Char :=
  if c.toNat = 233 then [Char.ofNat 101, Char.ofNat 769] else [c]

/-- Canonical decomposition of a string's characters. -/
def nfd (s : String) : List Char :=
  s.data.flatMap nfdChar

/-- Primary collation weight of a character under the root collation,
on the fragment these theorems use: combining marks are primary-ignorable
(weight 0), letters sort by base letter with case removed, digits sort
before letters, and remaining characters (punctuation and the like) sort
before digits. -/
def collPrim (c : Char) : Nat :=
  if 768 ≤ c.toNat ∧ c.toNat ≤ 879 then 0
  else if 65 ≤ c.toNat ∧ c.toNat ≤ 90 then 3000 + (c.toNat - 65)
  else if 97 ≤ c.toNat ∧ c.toNat ≤ 122 then 3000 + (c.toNat - 97)
  else if 48 ≤ c.toNat ∧ c.toNat ≤ 57 then 2000 + (c.toNat - 48)
  else 1000 + c.toNat

/-- Case weight: in the root collation a lowercase letter sorts before the
uppercase letter of the same primary weight. -/
def collCase (c : Char) : Nat :=
  if 65 ≤ c.toNat ∧ c.toNat ≤ 90 then 1 else 0

/-- Primary weight sequence of a string (ignorables dropped). -/
def primKey (s : String) : List Nat :=
  ((nfd s).map collPrim).filter (fun w => w != 0)

/-- Case weight sequence of a string. -/
def caseKey (s : String) : List Nat :=
  (nfd s).map collCase

/-- The locale-aware order: `localeLt s t` models
`s.localeCompare(t) < 0` — primary weight sequences compared first, case
sequences breaking primary ties. Distinct strings with identical weights
(canonically equivalent ones) compare equal: both directions are false. -/
def localeLt (s t : String) : Bool :=
  natListLt (primKey s) (primKey t) ||
    (primKey s == primKey t && natListLt (caseKey s) (caseKey t))

/-- Key order induced by the `localeCompare` comparator: the sort keeps
`a` before `b` whenever the comparator does not strictly order `b` first. -/
def localeKeyLe (a b : String × String) : Prop :=
  localeLt b.1 a.1 = false

instance : DecidableRel localeKeyLe := fun a b =>
  inferInstanceAs (Decidable (localeLt b.1 a.1 = false))

/-- The signing entries under the faithful `localeCompare` comparator, via
the same stable sort. -/
def signEntriesLocale (ps : List (String × String)) :
    List (String × String) :=
  List.insertionSort localeKeyLe (ps.filter keepParam)

/-- The signing string under the faithful `localeCompare` comparator. -/
def getVerifyParamsLocale (ps : List (String × String)) : String :=
  String.intercalate "&"
    ((signEntriesLocale ps).map (fun kv => kv.1 ++ "=" ++ kv.2))

/-- The signature token under the faithful `localeCompare` comparator. -/
def zpaySignLocale (ps : List (String × String)) (key : String) : String :=
  md5Hex (utf8Bytes (getVerifyParamsLocale ps ++ key))

/-- The precomposed é (U+00E9), as a one-character key. -/
def eAcuteNFC : String := ⟨[Char.ofNat 233]⟩

/-- The decomposed é: e (U+0065) followed by the combining acute accent
(U+0301). A different string from `eAcuteNFC`, but canonically equivalent,
so the `localeCompare` comparator treats the two as equal. -/
def eAcuteNFD : String := ⟨[Char.ofNat 101, Char.ofNat 769]⟩

/-- Exact rational value of a plain decimal string, modelling `parseFloat`
on the amount strings of this protocol (optional sign, digits, optional
fractional digits; anything unparsable is `none`, the NaN case). -/
def parseDecimal (s : String) : Option ℚ :=
  let (sgn, cs) : Int × List Char :=
    match s.data with
    | '-' :: r => (-1, r)
    | '+' :: r => (1, r)
    | r => (1, r)
  let intDs := cs.takeWhile Char.isDigit
  let rest := cs.dropWhile Char.isDigit
  let fracDs :=
    match rest with
    | '.' :: r => r.takeWhile Char.isDigit
    | _ => []
  if intDs.isEmpty && fracDs.isEmpty then none
  else
    let ip : Nat := intDs.foldl (fun a c => a * 10 + (c.toNat - 48)) 0
    let fp : Nat := fracDs.foldl (fun a c => a * 10 + (c.toNat - 48)) 0
    some (mkRat (sgn * ((ip * 10 ^ fracDs.length + fp : Nat) : Int))
      (10 ^ fracDs.length))

/-- Exact rational subtraction, written out on numerators and denominators
(equal to `a - b`; see `ratSub_eq`). -/
def ratSub (a b : ℚ) : ℚ :=
  mkRat (a.num * b.den - b.num * a.den) (a.den * b.den)

/-- Exact rational absolute value, written out on the numerator (equal to
`|q|`; see `ratAbs_eq`). -/
def ratAbs (q : ℚ) : ℚ :=
  mkRat q.num.natAbs q.den

/-- The amount tolerance of the webhook's check, 0.001 currency units. -/
def amountTol : ℚ := mkRat 1 1000

/-- Civil UTC datetime, the model of JS `Date` and of TIMESTAMPTZ values.
Canonical values have `1 ≤ month ≤ 12`, `1 ≤ day ≤ daysInMonth`, `hour < 24`,
`minute < 60`, `second < 60`, `ms < 1000`. -/
structure DateTime where
  year : Nat
  month : Nat
  day : Nat
  hour : Nat
  minute : Nat
  second : Nat
  ms : Nat
deriving DecidableEq, Repr

/-- Injective numeric encoding of a canonical datetime; chronological order
on canonical datetimes is `enc`-order (the model of TIMESTAMPTZ comparison
and of ISO-8601 string comparison). -/
def DateTime.enc (d : DateTime) : Nat :=
  (((((d.year * 13 + d.month) * 32 + d.day) * 24 + d.hour) * 60 + d.minute)
      * 60 + d.second) * 1000 + d.ms

/-- Gregorian leap-year rule. -/
def isLeap (y : Nat) : Bool :=
  y % 4 == 0 && (y % 100 != 0 || y % 400 == 0)

/-- Number of days in a month. -/
def daysInMonth (y m : Nat) : Nat :=
  if m = 2 then (if isLeap y then 29 else 28)
  else if m = 4 ∨ m = 6 ∨ m = 9 ∨ m = 11 then 30
  else 31

/-- JS `date.setMonth(date.getMonth() + 1)`: advance the calendar month by
one, carrying year rollover; a day-of-month past the end of the target
month rolls into the following month (JS date normalization). -/
def addOneMonth (d : DateTime) : DateTime :=
  let y := if d.month = 12 then d.year + 1 else d.year
  let m := if d.month = 12 then 1 else d.month + 1
  let dim := daysInMonth y m
  if d.day ≤ dim then { d with year := y, month := m }
  else
    let y2 := if m = 12 then y + 1 else y
    let m2 := if m = 12 then 1 else m + 1
    { d with year := y2, month := m2, day := d.day - dim }

/-- JS `date.setFullYear(date.getFullYear() + 1)`: advance the calendar
year by one; Feb 29 of a leap year rolls to Mar 1 (JS date normalization). -/
def addOneYear (d : DateTime) : DateTime :=
  let y := d.year + 1
  let dim := daysInMonth y d.month
  if d.day ≤ dim then { d with year := y }
  else
    let y2 := if d.month = 12 then y + 1 else y
    let m2 := if d.month = 12 then 1 else d.month + 1
    { d with year := y2, month := m2, day := d.day - dim }

/-- One row of the `zpay_transactions` table (see the schema SQL). -/
structure Txn where
  userId : String
  productId : String
  name : String
  outTradeNo : String
  tradeNo : Option String
  money : ℚ
  type : String
  status : String
  isSubscription : Bool
  subscriptionPeriod : Option String
  subscriptionStartDate : Option DateTime
  subscriptionEndDate : Option DateTime
  createdAt : DateTime
  updatedAt : DateTime
deriving DecidableEq, Repr

/-- The transactional store: the list of rows of `zpay_transactions`. -/
abbrev Ledger := List Txn

/-- Plain-text webhook acknowledgment (a `NextResponse` body and status). -/
structure HttpResponse where
  body : String
  status : Nat
deriving DecidableEq, Repr

/-- The success acknowledgment `new NextResponse("success")`. -/
def success200 : HttpResponse := ⟨"success", 200⟩

/-- The webhook notification fields, each defaulted to `""` when absent
(`searchParams.get(k) || ""`). -/
structure Notif where
  pid : String
  name : String
  money : String
  outTradeNo : String
  tradeNo : String
  param : String
  tradeStatus : String
  type : String
  sign : String
deriving DecidableEq, Repr

/-- Field extraction from the webhook query string (webhook lines 522-530). -/
def notifOfQuery (q : String → Option String) : Notif :=
  ⟨(q "pid").getD "", (q "name").getD "", (q "money").getD "",
   (q "out_trade_no").getD "", (q "trade_no").getD "", (q "param").getD "",
   (q "trade_status").getD "", (q "type").getD "", (q "sign").getD ""⟩

/-- The verification map the webhook rebuilds from the notification, in the
source's insertion order, each field added only when nonempty. -/
def buildVerifyList (n : Notif) : List (String × String) :=
  (if n.pid ≠ "" then [("pid", n.pid)] else []) ++
  (if n.name ≠ "" then [("name", n.name)] else []) ++
  (if n.money ≠ "" then [("money", n.money)] else []) ++
  (if n.outTradeNo ≠ "" then [("out_trade_no", n.outTradeNo)] else []) ++
  (if n.tradeNo ≠ "" then [("trade_no", n.tradeNo)] else []) ++
  (if n.param ≠ "" then [("param", n.param)] else []) ++
  (if n.tradeStatus ≠ "" then [("trade_status", n.tradeStatus)] else []) ++
  (if n.type ≠ "" then [("type", n.type)] else [])

/-- The signature the webhook expects for a notification. -/
def expectedSign (n : Notif) (key : String) : String :=
  zpaySign (buildVerifyList n) key

/-- The data written by the webhook's conditional update: status `paid`,
gateway trade number, `updated_at`, and optionally the subscription dates. -/
structure UpdateData where
  tradeNo : String
  updatedAt : DateTime
  subDates : Option (DateTime × DateTime)
deriving DecidableEq, Repr

/-- Application of the update payload to a row. -/
def applyUpdate (u : UpdateData) (t : Txn) : Txn :=
  { t with
    status := "paid"
    tradeNo := some u.tradeNo
    updatedAt := u.updatedAt
    subscriptionStartDate :=
      match u.subDates with
      | some se => some se.1
      | none => t.subscriptionStartDate
    subscriptionEndDate :=
      match u.subDates with
      | some se => some se.2
      | none => t.subscriptionEndDate }

/-- Predicate of the conditional update:
`.eq("out_trade_no", otn).eq("status", "pending")`. -/
def matchesPendingOtn (otn : String) (t : Txn) : Bool :=
  t.outTradeNo == otn && t.status == "pending"

/-- The atomic conditional update (webhook lines 666-671): update every row
whose order number matches and whose status is still `pending`; also report
the affected row count (`updatedRows.length`). -/
def condUpdatePaid (l : Ledger) (otn : String) (u : UpdateData) :
    Ledger × Nat :=
  (l.map (fun t => if matchesPendingOtn otn t then applyUpdate u t else t),
   (l.filter (matchesPendingOtn otn)).length)

/-- Subscription end dates of the user's paid, unexpired subscription rows
(the webhook's `existingSubscriptions` query, lines 627-636). -/
def activeSubEnds (l : Ledger) (uid : String) (now : DateTime) :
    List DateTime :=
  l.filterMap (fun t =>
    if t.userId == uid && t.isSubscription && t.status == "paid" then
      match t.subscriptionEndDate with
      | some e => if now.enc < e.enc then some e else none
      | none => none
    else none)

/-- Maximum-selection step of the `order desc / limit 1` query. -/
def pickLater (acc : Option DateTime) (e : DateTime) : Option DateTime :=
  match acc with
  | none => some e
  | some m => if m.enc < e.enc then some e else some m

/-- End date of the user's most recent paid unexpired subscription, if any
(`order("subscription_end_date", desc).limit(1)`). -/
def latestActiveSubEnd (l : Ledger) (uid : String) (now : DateTime) :
    Option DateTime :=
  (activeSubEnds l uid now).foldl pickLater none

/-- Truthiness of `transaction.subscription_period`. -/
def periodTruthy : Option String → Bool
  | none => false
  | some s => s != ""

/-- End-date computation from the start date and the subscription period
(webhook lines 650-655). -/
def advancePeriod (p : Option String) (start : DateTime) : DateTime :=
  if p == some "monthly" then addOneMonth start
  else if p == some "yearly" then addOneYear start
  else start

/-- The update payload the webhook builds for a matched order (lines
616-659): trade number and `updated_at` always; for a subscription order,
the stacked subscription window. -/
def mkUpdateData (n : Notif) (t : Txn) (now : DateTime) (l : Ledger) :
    UpdateData :=
  { tradeNo := n.tradeNo
    updatedAt := now
    subDates :=
      if t.isSubscription && periodTruthy t.subscriptionPeriod then
        let start := (latestActiveSubEnd l t.userId now).getD now
        some (start, advancePeriod t.subscriptionPeriod start)
      else none }

/-- The webhook reconciler (webhook `GET`, lines 515-698), as a function of
the parsed notification, the shared secret (empty string models the missing
environment variable), the current time, and the ledger. Returns the
acknowledgment and the new ledger. -/
def webhookCore (n : Notif) (key : String) (now : DateTime) (l : Ledger) :
    HttpResponse × Ledger :=
  if key = "" then (⟨"配置错误", 500⟩, l)
  else if n.sign ≠ expectedSign n key then (⟨"签名验证失败", 400⟩, l)
  else if n.tradeStatus ≠ "TRADE_SUCCESS" then (success200, l)
  else
    match l.filter (fun t => t.outTradeNo == n.outTradeNo) with
    | [t] =>
      if t.status = "paid" then (success200, l)
      else
        match parseDecimal n.money with
        | none => (⟨"金额不匹配", 400⟩, l)
        | some r =>
          if amountTol < ratAbs (ratSub r t.money) then (⟨"金额不匹配", 400⟩, l)
          else
            (success200,
             (condUpdatePaid l n.outTradeNo (mkUpdateData n t now l)).1)
    | _ => (⟨"订单不存在", 400⟩, l)

/-- The webhook endpoint: field extraction composed with the reconciler. -/
def webhookGet (q : String → Option String) (key : String) (now : DateTime)
    (l : Ledger) : HttpResponse × Ledger :=
  webhookCore (notifOfQuery q) key now l

/-- Left-pad a decimal rendering with zeros to the given width
(`String.padStart(w, "0")`). -/
def padZeros (w : Nat) (n : Nat) : String :=
  let s := Nat.repr n
  ⟨List.replicate (w - s.length) '0' ++ s.data⟩

/-- Merchant order number: full timestamp plus a 3-digit random suffix
(`generateOrderNo`, url/route.ts lines 319-332). The random draw
`Math.floor(Math.random() * 1000)` is passed in as `rand`. -/
def generateOrderNo (now : DateTime) (rand : Nat) : String :=
  Nat.repr now.year ++ padZeros 2 now.month ++ padZeros 2 now.day ++
    padZeros 2 now.hour ++ padZeros 2 now.minute ++ padZeros 2 now.second ++
    padZeros 3 (rand % 1000)

/-- Product descriptor, the injected read-only catalog entry
(`products[productId]` from the external `@/lib/products` module). -/
structure Product where
  price : String
  name : String
  isSubscription : Bool
  subscriptionPeriod : Option String
deriving DecidableEq, Repr

/-- The required external configuration; an empty string models a missing
environment variable (`ZPAY_PID`, `ZPAY_KEY`, `NEXT_PUBLIC_BASE_URL`). -/
structure ZpayConfig where
  pid : String
  key : String
  baseUrl : String
deriving DecidableEq, Repr

/-- Result of an issuance or regeneration request: either the signed
parameter set embedded in the redirect URL, or a JSON error response. -/
inductive ApiResult where
  | ok (params : List (String × String))
  | err (msg : String) (status : Nat)
deriving DecidableEq, Repr

/-- The signed-parameter set shared by issuance and regeneration
(url/route.ts lines 418-426, repay/route.ts lines 89-97). -/
def issuerParams (cfg : ZpayConfig) (price name payType otn : String) :
    List (String × String) :=
  [("pid", cfg.pid), ("money", price), ("name", name),
   ("notify_url", cfg.baseUrl ++ "/api/checkout/providers/zpay/webhook"),
   ("out_trade_no", otn),
   ("return_url", cfg.baseUrl ++ "/payment/success"),
   ("type", payType)]

/-- Append `sign` and the fixed `sign_type` to a parameter set. -/
def withSign (ps : List (String × String)) (key : String) :
    List (String × String) :=
  ps ++ [("sign", zpaySign ps key), ("sign_type", "MD5")]

/-- The pending row inserted by the issuer (url/route.ts lines 437-449).
`parseFloat(product.price)` is defaulted to `0` on unparsable input, a case
outside the catalog contents this system ships. -/
def newTxn (uid productId : String) (p : Product) (otn payType : String)
    (now : DateTime) : Txn :=
  { userId := uid
    productId := productId
    name := p.name
    outTradeNo := otn
    tradeNo := none
    money := (parseDecimal p.price).getD 0
    type := payType
    status := "pending"
    isSubscription := p.isSubscription
    subscriptionPeriod :=
      match p.subscriptionPeriod with
      | some s => if s = "" then none else some s
      | none => none
    subscriptionStartDate := none
    subscriptionEndDate := none
    createdAt := now
    updatedAt := now }

/-- The order issuer (`POST /api/checkout/providers/zpay/url`): auth check,
payment-method validation, catalog lookup, configuration check, signature,
then a single insert whose failure (here: an order-number uniqueness
violation) is returned to the caller as a 500 error. The generated order
number is the `otn` argument. -/
def issuerPost (user : Option String) (productId payType : String)
    (catalog : String → Option Product) (cfg : ZpayConfig) (otn : String)
    (now : DateTime) (l : Ledger) : ApiResult × Ledger :=
  match user with
  | none => (.err "请先登录后再进行支付" 401, l)
  | some uid =>
    if payType ≠ "alipay" ∧ payType ≠ "wxpay" then
      (.err "不支持的支付方式" 400, l)
    else
      match catalog productId with
      | none => (.err "产品不存在" 400, l)
      | some p =>
        if cfg.pid = "" ∨ cfg.key = "" ∨ cfg.baseUrl = "" then
          (.err "支付服务配置错误，请联系管理员" 500, l)
        else if l.any (fun t => t.outTradeNo == otn) then
          (.err "创建订单失败，请稍后重试" 500, l)
        else
          (.ok (withSign (issuerParams cfg p.price p.name payType otn) cfg.key),
           l ++ [newTxn uid productId p otn payType now])

/-- Rendering of a stored amount back to a string
(`String(transaction.money)` in repay/route.ts), for amounts with at most
two decimals as constrained by the DECIMAL(10,2) column. -/
def renderMoney (q : ℚ) : String :=
  let neg : Bool := q.num < 0
  let cents : Nat := q.num.natAbs * 100 / q.den
  let w := cents / 100
  let f := cents % 100
  let base :=
    if f = 0 then Nat.repr w
    else if f % 10 = 0 then Nat.repr w ++ "." ++ Nat.repr (f / 10)
    else Nat.repr w ++ "." ++ (if f < 10 then "0" else "") ++ Nat.repr f
  if neg then "-" ++ base else base

/-- The redirect regenerator (`POST /api/checkout/providers/zpay/repay`):
auth check, order-number presence, then a lookup scoped to the caller's own
rows (the row-level security policy `auth.uid() = user_id`) and to status
`pending`; on a unique match the parameter set is rebuilt from the stored
row and re-signed. The ledger is never written. -/
def repayPost (user : Option String) (otn : Option String)
    (cfg : ZpayConfig) (l : Ledger) : ApiResult :=
  match user with
  | none => .err "请先登录后再进行支付" 401
  | some uid =>
    match otn with
    | none => .err "缺少订单号" 400
    | some o =>
      if o = "" then .err "缺少订单号" 400
      else
        match l.filter (fun t =>
            t.userId == uid && t.outTradeNo == o && t.status == "pending") with
        | [t] =>
          if cfg.pid = "" ∨ cfg.key = "" ∨ cfg.baseUrl = "" then
            .err "支付服务配置错误，请联系管理员" 500
          else
            .ok (withSign
              (issuerParams cfg (renderMoney t.money) t.name t.type t.outTradeNo)
              cfg.key)
        | _ => .err "订单不存在或已支付" 404

/-- Spec-side description of an unexpired paid subscription window end for
a user: some paid subscription row of the user ends at `e`, strictly after
`now`. -/
def ActiveSubFor (l : Ledger) (uid : String) (now : DateTime) (e : DateTime) :
    Prop :=
  ∃ t, t ∈ l ∧ t.userId = uid ∧ t.isSubscription = true ∧ t.status = "paid" ∧
    t.subscriptionEndDate = some e ∧ now.enc < e.enc

/-- Spec-side description of the start of a stacked subscription window:
the greatest unexpired paid subscription end date if one exists, and `now`
otherwise. -/
def IsLatestActiveEnd (l : Ledger) (uid : String) (now : DateTime)
    (s : DateTime) : Prop :=
  (ActiveSubFor l uid now s ∧ ∀ e, ActiveSubFor l uid now e → e.enc ≤ s.enc) ∨
  ((∀ e, ¬ ActiveSubFor l uid now e) ∧ s = now)

/-- Concrete evaluation time used by the witnesses. -/
def testDate : DateTime := ⟨2025, 4, 1, 0, 0, 0, 0⟩

/-- A later evaluation time used by the replay witness. -/
def testDate2 : DateTime := ⟨2025, 4, 2, 12, 30, 0, 0⟩

/-- Concrete configuration used by the witnesses. -/
def testCfg : ZpayConfig := ⟨"1001", "secretkey", "https://example.com"⟩

/-- Concrete one-time product used by the witnesses. -/
def testProduct : Product := ⟨"49.9", "basic", false, none⟩

/-- Concrete catalog used by the witnesses. -/
def testCatalog : String → Option Product := fun pid =>
  if pid = "basic-onetime" then some testProduct else none

/-- A pending one-time order row used by the witnesses. -/
def pendingTxn : Txn :=
  { userId := "u1"
    productId := "basic-onetime"
    name := "basic"
    outTradeNo := "20250401000000123"
    tradeNo := none
    money := mkRat 499 10
    type := "alipay"
    status := "pending"
    isSubscription := false
    subscriptionPeriod := none
    subscriptionStartDate := none
    subscriptionEndDate := none
    createdAt := testDate
    updatedAt := testDate }

/-- A success notification for `pendingTxn`, before signing. -/
def baseNotif : Notif :=
  { pid := "1001"
    name := "basic"
    money := "49.9"
    outTradeNo := "20250401000000123"
    tradeNo := "Z123"
    param := ""
    tradeStatus := "TRADE_SUCCESS"
    type := "alipay"
    sign := "" }

/-- The correctly signed success notification for `pendingTxn`. -/
def testNotif : Notif :=
  { baseNotif with sign := expectedSign baseNotif "secretkey" }

/-- A pending monthly subscription order row used by the witnesses. -/
def subPendingTxn : Txn :=
  { userId := "u1"
    productId := "pro-monthly"
    name := "pro"
    outTradeNo := "20250401000000555"
    tradeNo := none
    money := mkRat 399 10
    type := "alipay"
    status := "pending"
    isSubscription := true
    subscriptionPeriod := some "monthly"
    subscriptionStartDate := none
    subscriptionEndDate := none
    createdAt := testDate
    updatedAt := testDate }

/-- A paid subscription row of the same user whose window is still open at
`testDate` (ends 2025-04-15). -/
def paidSubTxn : Txn :=
  { userId := "u1"
    productId := "pro-monthly"
    name := "pro"
    outTradeNo := "20250315000000777"
    tradeNo := some "Z777"
    money := mkRat 399 10
    type := "alipay"
    status := "paid"
    isSubscription := true
    subscriptionPeriod := some "monthly"
    subscriptionStartDate := some ⟨2025, 3, 15, 0, 0, 0, 0⟩
    subscriptionEndDate := some ⟨2025, 4, 15, 0, 0, 0, 0⟩
    createdAt := ⟨2025, 3, 15, 0, 0, 0, 0⟩
    updatedAt := ⟨2025, 3, 15, 0, 0, 0, 0⟩ }

/-- A success notification for `subPendingTxn`, before signing. -/
def baseSubNotif : Notif :=
  { pid := "1001"
    name := "pro"
    money := "39.9"
    outTradeNo := "20250401000000555"
    tradeNo := "Z555"
    param := ""
    tradeStatus := "TRADE_SUCCESS"
    type := "alipay"
    sign := "" }

/-- The correctly signed success notification for `subPendingTxn`. -/
def subNotif : Notif :=
  { baseSubNotif with sign := expectedSign baseSubNotif "secretkey" }

lemma applyUpdate_outTradeNo (u : UpdateData) (t : Txn) :
    (applyUpdate u t).outTradeNo = t.outTradeNo := rfl

lemma applyUpdate_status (u : UpdateData) (t : Txn) :
    (applyUpdate u t).status = "paid" := rfl

lemma webhookCore_cases (n : Notif) (key : String) (now : DateTime) (l : Ledger) :
    (webhookCore n key now l).2 = l ∨
    ∃ t, l.filter (fun t => t.outTradeNo == n.outTradeNo) = [t] ∧ t.status ≠ "paid" ∧
      key ≠ "" ∧ n.sign = expectedSign n key ∧ n.tradeStatus = "TRADE_SUCCESS" ∧
      (∃ r, parseDecimal n.money = some r ∧ ¬(amountTol < ratAbs (ratSub r t.money))) ∧
      webhookCore n key now l =
        (success200, (condUpdatePaid l n.outTradeNo (mkUpdateData n t now l)).1) := by
  unfold webhookCore
  split
  · left; rfl
  split
  · left; rfl
  split
  · left; rfl
  next hkey hsign hts =>
    split
    next t heq =>
      split
      · left; rfl
      next hpaid =>
        split
        · left; rfl
        next r hr =>
          split
          · left; rfl
          next hamt =>
            right
            exact ⟨t, heq, hpaid, hkey, not_not.mp (fun h => hsign h), not_not.mp (fun h => hts h), ⟨r, hr, hamt⟩, rfl⟩
    · left; rfl

lemma condUpdatePaid_length (l : Ledger) (otn : String) (u : UpdateData) :
    ((condUpdatePaid l otn u).1).length = l.length := by
  simp [condUpdatePaid]

lemma condUpdatePaid_zero (l : Ledger) (otn : String) (u : UpdateData)
    (h : (condUpdatePaid l otn u).2 = 0) : (condUpdatePaid l otn u).1 = l := by
  simp only [condUpdatePaid, List.length_eq_zero] at h
  have hall : ∀ t ∈ l, matchesPendingOtn otn t = false := by
    intro t ht
    by_contra hc
    have : t ∈ l.filter (matchesPendingOtn otn) :=
      List.mem_filter.mpr ⟨ht, by simpa using hc⟩
    simp [h] at this
  simp only [condUpdatePaid]
  calc l.map (fun t => if matchesPendingOtn otn t then applyUpdate u t else t)
      = l.map id := List.map_congr_left (fun t ht => by simp [hall t ht])
    _ = l := List.map_id l

lemma filter_eq_singleton_unique {p : Txn → Bool} {l : Ledger} {t : Txn}
    (h : l.filter p = [t]) : ∀ x ∈ l, p x → x = t := by
  intro x hx hpx
  have : x ∈ l.filter p := List.mem_filter.mpr ⟨hx, hpx⟩
  simpa [h] using this

lemma matchesPendingOtn_iff (otn : String) (t : Txn) :
    matchesPendingOtn otn t = true ↔ t.outTradeNo = otn ∧ t.status = "pending" := by
  simp [matchesPendingOtn]

lemma condUpdatePaid_id {l : Ledger} {otn : String} {u : UpdateData}
    (h : ∀ t ∈ l, matchesPendingOtn otn t = false) :
    (condUpdatePaid l otn u).1 = l := by
  simp only [condUpdatePaid]
  calc l.map (fun t => if matchesPendingOtn otn t then applyUpdate u t else t)
      = l.map id := List.map_congr_left (fun t ht => by simp [h t ht])
    _ = l := List.map_id l

lemma condUpdatePaid_filter_otn (l : Ledger) (otn : String) (u : UpdateData)
    (s : String) :
    (condUpdatePaid l otn u).1.filter (fun x => x.outTradeNo == s) =
      (l.filter (fun x => x.outTradeNo == s)).map
        (fun x => if matchesPendingOtn otn x then applyUpdate u x else x) := by
  have hfun : ((fun x : Txn => x.outTradeNo == s) ∘
      (fun t => if matchesPendingOtn otn t then applyUpdate u t else t)) =
      (fun x : Txn => x.outTradeNo == s) := by
    funext x
    by_cases hm : matchesPendingOtn otn x <;>
      simp [hm, Function.comp, applyUpdate_outTradeNo]
  simp only [condUpdatePaid]
  rw [List.filter_map, hfun]

lemma getD_update_eq (l : Ledger) (otn : String) (u : UpdateData) (i : Nat)
    (d : Txn) (hi : i < l.length) :
    ((condUpdatePaid l otn u).1).getD i d =
      if matchesPendingOtn otn (l.getD i d) then applyUpdate u (l.getD i d)
      else l.getD i d := by
  simp only [condUpdatePaid, List.getD_eq_getElem?_getD, List.getElem?_map]
  rw [List.getElem?_eq_getElem hi]
  simp

lemma mem_activeSubEnds_iff (l : Ledger) (uid : String) (now : DateTime)
    (e : DateTime) :
    e ∈ activeSubEnds l uid now ↔ ActiveSubFor l uid now e := by
  simp only [activeSubEnds, List.mem_filterMap, ActiveSubFor]
  constructor
  · rintro ⟨t, ht, hf⟩
    refine ⟨t, ht, ?_⟩
    by_cases hb : t.userId == uid && t.isSubscription && t.status == "paid"
    · rw [if_pos hb] at hf
      simp only [Bool.and_eq_true, beq_iff_eq] at hb
      cases hse : t.subscriptionEndDate with
      | none => rw [hse] at hf; simp at hf
      | some e0 =>
        rw [hse] at hf
        dsimp only [] at hf
        by_cases hlt : now.enc < e0.enc
        · rw [if_pos hlt] at hf
          cases hf
          exact ⟨hb.1.1, hb.1.2, hb.2, rfl, hlt⟩
        · rw [if_neg hlt] at hf; simp at hf
    · rw [if_neg hb] at hf; simp at hf
  · rintro ⟨t, ht, h1, h2, h3, h4, h5⟩
    refine ⟨t, ht, ?_⟩
    rw [if_pos (by simp [h1, h2, h3]), h4]
    dsimp only []
    rw [if_pos h5]

lemma pickLater_spec (acc : Option DateTime) (e : DateTime) :
    ∃ v, pickLater acc e = some v ∧ e.enc ≤ v.enc ∧ (v = e ∨ acc = some v) ∧
      (∀ a, acc = some a → a.enc ≤ v.enc) := by
  cases acc with
  | none => exact ⟨e, rfl, le_refl _, Or.inl rfl, by simp⟩
  | some a =>
    by_cases hlt : a.enc < e.enc
    · exact ⟨e, by simp [pickLater, hlt], le_refl _, Or.inl rfl,
        fun b hb => by cases hb; exact le_of_lt hlt⟩
    · exact ⟨a, by simp [pickLater, hlt], le_of_not_lt hlt, Or.inr rfl,
        fun b hb => by cases hb; exact le_refl _⟩

lemma foldl_pickLater_some (es : List DateTime) :
    ∀ (acc : Option DateTime) (m : DateTime),
      es.foldl pickLater acc = some m →
      (acc = some m ∨ m ∈ es) ∧ (∀ e ∈ es, e.enc ≤ m.enc) ∧
        (∀ a, acc = some a → a.enc ≤ m.enc) := by
  induction es with
  | nil =>
    intro acc m h
    simp only [List.foldl_nil] at h
    exact ⟨Or.inl h, by simp, fun a ha => by rw [ha] at h; cases h; exact le_refl _⟩
  | cons e es ih =>
    intro acc m h
    simp only [List.foldl_cons] at h
    obtain ⟨h1, h2, h3⟩ := ih (pickLater acc e) m h
    obtain ⟨v, hv, hev, hcase, hacc⟩ := pickLater_spec acc e
    have hvm : v.enc ≤ m.enc := h3 v hv
    refine ⟨?_, ?_, ?_⟩
    · rcases h1 with h1 | h1
      · rw [hv] at h1
        cases h1
        rcases hcase with hc | hc
        · exact Or.inr (by rw [hc]; exact List.mem_cons_self e es)
        · exact Or.inl hc
      · exact Or.inr (List.mem_cons_of_mem e h1)
    · intro x hx
      rcases List.mem_cons.mp hx with hx | hx
      · cases hx; exact le_trans hev hvm
      · exact h2 x hx
    · intro a ha
      exact le_trans (hacc a ha) hvm

lemma foldl_pickLater_none (es : List DateTime) :
    ∀ (acc : Option DateTime), es.foldl pickLater acc = none →
      acc = none ∧ es = [] := by
  induction es with
  | nil => intro acc h; exact ⟨by simpa using h, rfl⟩
  | cons e es ih =>
    intro acc h
    simp only [List.foldl_cons] at h
    obtain ⟨h1, _⟩ := ih (pickLater acc e) h
    obtain ⟨v, hv, _⟩ := pickLater_spec acc e
    rw [hv] at h1
    cases h1

lemma latestActive_spec (l : Ledger) (uid : String) (now : DateTime) :
    IsLatestActiveEnd l uid now ((latestActiveSubEnd l uid now).getD now) := by
  cases h : latestActiveSubEnd l uid now with
  | none =>
    right
    obtain ⟨_, hnil⟩ := foldl_pickLater_none _ _ h
    refine ⟨fun e he => ?_, by simp⟩
    have : e ∈ activeSubEnds l uid now := (mem_activeSubEnds_iff l uid now e).mpr he
    rw [hnil] at this
    simp at this
  | some m =>
    left
    obtain ⟨h1, h2, _⟩ := foldl_pickLater_some _ _ _ h
    have hm : m ∈ activeSubEnds l uid now := by
      rcases h1 with h1 | h1
      · cases h1
      · exact h1
    simp only [Option.getD_some]
    exact ⟨(mem_activeSubEnds_iff l uid now m).mp hm,
      fun e he => h2 e ((mem_activeSubEnds_iff l uid now e).mpr he)⟩

lemma ledger_getD_mem (l : Ledger) (i : Nat) (d : Txn) (h : i < l.length) :
    l.getD i d ∈ l := by
  rw [List.getD_eq_getElem?_getD, List.getElem?_eq_getElem h]
  exact List.getElem_mem h

lemma encodeChar_ne_nil (c : Char) : encodeChar c ≠ [] := by
  unfold encodeChar
  split
  · simp
  split
  · simp
  split
  · simp
  · simp

lemma lex_append_left {r : Nat → Nat → Prop} (p : List Nat) {l1 l2 : List Nat}
    (h : List.Lex r l1 l2) : List.Lex r (p ++ l1) (p ++ l2) := by
  induction p with
  | nil => exact h
  | cons a p ih => exact List.Lex.cons ih

lemma char_toNat_lt {a b : Char} (h : a < b) : a.toNat < b.toNat := by
  simpa [Char.lt_iff_val_lt_val, UInt32.lt_def, BitVec.lt_def] using h

lemma encodeChar_lex {c d : Char} (h : c.toNat < d.toNat) (r1 r2 : List Nat) :
    List.Lex (· < ·) (encodeChar c ++ r1) (encodeChar d ++ r2) := by
  unfold encodeChar
  by_cases hc1 : c.toNat < 128
  · rw [if_pos hc1]
    by_cases hd1 : d.toNat < 128
    · rw [if_pos hd1]
      exact List.Lex.rel h
    · rw [if_neg hd1]
      by_cases hd2 : d.toNat < 2048
      · rw [if_pos hd2]
        exact List.Lex.rel (by omega)
      · rw [if_neg hd2]
        by_cases hd3 : d.toNat < 65536
        · rw [if_pos hd3]
          exact List.Lex.rel (by omega)
        · rw [if_neg hd3]
          exact List.Lex.rel (by omega)
  · rw [if_neg hc1]
    by_cases hc2 : c.toNat < 2048
    · rw [if_pos hc2]
      have hd1 : ¬ d.toNat < 128 := by omega
      rw [if_neg hd1]
      by_cases hd2 : d.toNat < 2048
      · rw [if_pos hd2]
        rcases Nat.lt_or_ge (c.toNat / 64) (d.toNat / 64) with hq | hq
        · exact List.Lex.rel (by omega)
        · have hq' : 192 + c.toNat / 64 = 192 + d.toNat / 64 := by omega
          simp only [List.cons_append]
          rw [hq']
          exact List.Lex.cons (List.Lex.rel (by omega))
      · rw [if_neg hd2]
        by_cases hd3 : d.toNat < 65536
        · rw [if_pos hd3]
          exact List.Lex.rel (by omega)
        · rw [if_neg hd3]
          exact List.Lex.rel (by omega)
    · rw [if_neg hc2]
      by_cases hc3 : c.toNat < 65536
      · rw [if_pos hc3]
        have hd1 : ¬ d.toNat < 128 := by omega
        have hd2 : ¬ d.toNat < 2048 := by omega
        rw [if_neg hd1, if_neg hd2]
        by_cases hd3 : d.toNat < 65536
        · rw [if_pos hd3]
          rcases Nat.lt_or_ge (c.toNat / 4096) (d.toNat / 4096) with hq | hq
          · exact List.Lex.rel (by omega)
          · have hq1 : 224 + c.toNat / 4096 = 224 + d.toNat / 4096 := by omega
            simp only [List.cons_append]
            rw [hq1]
            rcases Nat.lt_or_ge ((c.toNat / 64) % 64) ((d.toNat / 64) % 64) with
              hm | hm
            · exact List.Lex.cons (List.Lex.rel (by omega))
            · have hq2 : 128 + (c.toNat / 64) % 64 = 128 + (d.toNat / 64) % 64 := by
                omega
              rw [hq2]
              exact List.Lex.cons (List.Lex.cons (List.Lex.rel (by omega)))
        · rw [if_neg hd3]
          exact List.Lex.rel (by omega)
      · rw [if_neg hc3]
        have hd1 : ¬ d.toNat < 128 := by omega
        have hd2 : ¬ d.toNat < 2048 := by omega
        have hd3 : ¬ d.toNat < 65536 := by omega
        rw [if_neg hd1, if_neg hd2, if_neg hd3]
        rcases Nat.lt_or_ge (c.toNat / 262144) (d.toNat / 262144) with hq | hq
        · exact List.Lex.rel (by omega)
        · have hq1 : 240 + c.toNat / 262144 = 240 + d.toNat / 262144 := by omega
          simp only [List.cons_append]
          rw [hq1]
          rcases Nat.lt_or_ge ((c.toNat / 4096) % 64) ((d.toNat / 4096) % 64) with
            hm | hm
          · exact List.Lex.cons (List.Lex.rel (by omega))
          · have hq2 : 128 + (c.toNat / 4096) % 64 = 128 + (d.toNat / 4096) % 64 := by
              omega
            rw [hq2]
            rcases Nat.lt_or_ge ((c.toNat / 64) % 64) ((d.toNat / 64) % 64) with
              hm2 | hm2
            · exact List.Lex.cons (List.Lex.cons (List.Lex.rel (by omega)))
            · have hq3 : 128 + (c.toNat / 64) % 64 = 128 + (d.toNat / 64) % 64 := by
                omega
              rw [hq3]
              exact List.Lex.cons (List.Lex.cons (List.Lex.cons
                (List.Lex.rel (by omega))))

lemma utf8List_lex {cs ds : List Char} (h : List.Lex (· < ·) cs ds) :
    List.Lex (· < ·) (cs.flatMap encodeChar) (ds.flatMap encodeChar) := by
  induction h with
  | nil =>
    rename_i b bs
    obtain ⟨x, xs, hE⟩ := List.exists_cons_of_ne_nil (encodeChar_ne_nil b)
    simp only [List.flatMap_nil, List.flatMap_cons, hE, List.cons_append]
    exact List.Lex.nil
  | rel hab =>
    simp only [List.flatMap_cons]
    exact encodeChar_lex (char_toNat_lt hab) _ _
  | cons hlex ih =>
    simp only [List.flatMap_cons]
    exact lex_append_left _ ih

lemma charsLe_trans :
    ∀ cs ds es, charsLe cs ds = true → charsLe ds es = true →
      charsLe cs es = true
  | [], _, es => fun _ _ => by cases es <;> rfl
  | c :: cs, [], es => fun h _ => by simp [charsLe] at h
  | c :: cs, d :: ds, [] => fun _ h => by simp [charsLe] at h
  | c :: cs, d :: ds, e :: es => fun h1 h2 => by
    simp only [charsLe] at h1 h2 ⊢
    by_cases hcd : c < d
    · by_cases hde : d < e
      · rw [if_pos (lt_trans hcd hde)]
      · by_cases hed : e < d
        · rw [if_neg hde, if_pos hed] at h2
          cases h2
        · have hde2 : d = e := le_antisymm (le_of_not_lt hed) (le_of_not_lt hde)
          subst hde2
          rw [if_pos hcd]
    · by_cases hdc : d < c
      · rw [if_neg hcd, if_pos hdc] at h1
        cases h1
      · have hcd2 : c = d := le_antisymm (le_of_not_lt hdc) (le_of_not_lt hcd)
        subst hcd2
        rw [if_neg hcd, if_neg hdc] at h1
        by_cases hce : c < e
        · rw [if_pos hce]
        · by_cases hec : e < c
          · rw [if_neg hce, if_pos hec] at h2
            cases h2
          · have hce2 : c = e := le_antisymm (le_of_not_lt hec) (le_of_not_lt hce)
            subst hce2
            rw [if_neg hce, if_neg hec] at h2 ⊢
            exact charsLe_trans cs ds es h1 h2

lemma charsLe_total :
    ∀ cs ds, charsLe cs ds = true ∨ charsLe ds cs = true
  | [], _ => Or.inl rfl
  | _ :: _, [] => Or.inr rfl
  | c :: cs, d :: ds => by
    by_cases hcd : c < d
    · exact Or.inl (by simp [charsLe, hcd])
    · by_cases hdc : d < c
      · exact Or.inr (by simp [charsLe, hdc])
      · have h : c = d := le_antisymm (le_of_not_lt hdc) (le_of_not_lt hcd)
        subst h
        rcases charsLe_total cs ds with h | h
        · refine Or.inl ?_
          simp only [charsLe]
          rw [if_neg (lt_irrefl c), if_neg (lt_irrefl c)]
          exact h
        · refine Or.inr ?_
          simp only [charsLe]
          rw [if_neg (lt_irrefl c), if_neg (lt_irrefl c)]
          exact h

lemma charsLe_eq_or_lex :
    ∀ cs ds, charsLe cs ds = true → cs = ds ∨ List.Lex (· < ·) cs ds
  | [], [] => fun _ => Or.inl rfl
  | [], _ :: _ => fun _ => Or.inr List.Lex.nil
  | c :: cs, [] => fun h => by simp [charsLe] at h
  | c :: cs, d :: ds => fun h => by
    simp only [charsLe] at h
    by_cases hcd : c < d
    · exact Or.inr (List.Lex.rel hcd)
    · by_cases hdc : d < c
      · rw [if_neg hcd, if_pos hdc] at h
        cases h
      · have he : c = d := le_antisymm (le_of_not_lt hdc) (le_of_not_lt hcd)
        subst he
        rw [if_neg hcd, if_neg hdc] at h
        rcases charsLe_eq_or_lex cs ds h with h2 | h2
        · exact Or.inl (by rw [h2])
        · exact Or.inr (List.Lex.cons h2)

instance : IsTotal (String × String) keyLe :=
  ⟨fun a b => charsLe_total a.1.data b.1.data⟩

instance : IsTrans (String × String) keyLe :=
  ⟨fun a b c => charsLe_trans a.1.data b.1.data c.1.data⟩

lemma signEntries_sorted (ps : List (String × String)) :
    (signEntries ps).Pairwise keyLe :=
  List.sorted_insertionSort keyLe (ps.filter keepParam)

lemma signEntries_perm (ps : List (String × String)) :
    (signEntries ps).Perm (ps.filter keepParam) :=
  List.perm_insertionSort keyLe (ps.filter keepParam)

lemma keyLe_utf8 {a b : String × String} (h : keyLe a b) :
    utf8Bytes a.1 = utf8Bytes b.1 ∨
      List.Lex (· < ·) (utf8Bytes a.1) (utf8Bytes b.1) := by
  rcases charsLe_eq_or_lex _ _ h with he | hl
  · left
    unfold utf8Bytes
    rw [he]
  · right
    exact utf8List_lex hl

lemma keyLt_of_keyLe_ne {a b : String × String} (h : keyLe a b)
    (hne : a.1 ≠ b.1) : List.Lex (· < ·) a.1.data b.1.data := by
  rcases charsLe_eq_or_lex _ _ h with he | hl
  · exact absurd (String.ext he) hne
  · exact hl

lemma signEntries_eq_of_perm {p1 p2 : List (String × String)}
    (h : p1.Perm p2) (hnd : (p1.map Prod.fst).Nodup) :
    signEntries p1 = signEntries p2 := by
  have hperm : (signEntries p1).Perm (signEntries p2) :=
    ((signEntries_perm p1).trans (h.filter keepParam)).trans
      (signEntries_perm p2).symm
  have hnd1 : ((signEntries p1).map Prod.fst).Nodup := by
    have hsub : (p1.filter keepParam).Sublist p1 := List.filter_sublist p1
    have hnodup : ((p1.filter keepParam).map Prod.fst).Nodup :=
      hnd.sublist (hsub.map Prod.fst)
    exact (((signEntries_perm p1).map Prod.fst).nodup_iff).mpr hnodup
  have hnd2 : ((signEntries p2).map Prod.fst).Nodup :=
    ((hperm.map Prod.fst).nodup_iff).mp hnd1
  have hst1 : (signEntries p1).Pairwise
      (fun a b => List.Lex (· < ·) a.1.data b.1.data) := by
    have hne := List.pairwise_map.mp hnd1
    exact (signEntries_sorted p1).imp₂
      (fun a b hle hne => keyLt_of_keyLe_ne hle hne) hne
  have hst2 : (signEntries p2).Pairwise
      (fun a b => List.Lex (· < ·) a.1.data b.1.data) := by
    have hne := List.pairwise_map.mp hnd2
    exact (signEntries_sorted p2).imp₂
      (fun a b hle hne => keyLt_of_keyLe_ne hle hne) hne
  haveI : IsAsymm Char (· < ·) := ⟨fun _ _ h1 h2 => absurd h2 (lt_asymm h1)⟩
  haveI : IsAntisymm (String × String)
      (fun a b => List.Lex (· < ·) a.1.data b.1.data) :=
    ⟨fun a b h1 h2 => absurd h2 (asymm h1)⟩
  exact List.eq_of_perm_of_sorted hperm hst1 hst2

lemma zpaySign_perm {p1 p2 : List (String × String)} (key : String)
    (h : p1.Perm p2) (hnd : (p1.map Prod.fst).Nodup) :
    zpaySign p1 key = zpaySign p2 key := by
  unfold zpaySign getVerifyParams
  rw [signEntries_eq_of_perm h hnd]

lemma signEntries_cons_sign (p : List (String × String)) (v : String) :
    signEntries (("sign", v) :: p) = signEntries p := by
  simp [signEntries, List.filter_cons, keepParam]

lemma signEntries_cons_signType (p : List (String × String)) (v : String) :
    signEntries (("sign_type", v) :: p) = signEntries p := by
  simp [signEntries, List.filter_cons, keepParam]

lemma signEntries_cons_empty (p : List (String × String)) (k : String) :
    signEntries ((k, "") :: p) = signEntries p := by
  simp [signEntries, List.filter_cons, keepParam]


lemma amountTol_eq : amountTol = 1 / 1000 := by
  unfold amountTol
  rw [Rat.mkRat_eq_div]
  norm_num

lemma ratSub_eq (a b : ℚ) : ratSub a b = a - b := by
  unfold ratSub
  have ha : ((a.den : ℚ)) ≠ 0 := Nat.cast_ne_zero.mpr a.den_nz
  have hb : ((b.den : ℚ)) ≠ 0 := Nat.cast_ne_zero.mpr b.den_nz
  rw [Rat.mkRat_eq_div]
  conv_rhs => rw [← Rat.num_div_den a, ← Rat.num_div_den b]
  rw [div_sub_div _ _ ha hb]
  push_cast
  ring_nf

lemma ratAbs_eq (q : ℚ) : ratAbs q = |q| := by
  unfold ratAbs
  rw [Rat.mkRat_eq_div]
  conv_rhs => rw [← Rat.num_div_den q]
  rw [abs_div]
  congr 1
  · push_cast [Int.cast_natAbs]
    ring
  · rw [abs_of_pos]
    exact_mod_cast q.pos

/-- C1: for every order the webhook reconciler performs at most one status
transition ever: the only write is the single conditional update on rows
that still have status `pending` and carry the notification's order
number; any row it changes goes from `pending` to `paid` with the gateway
trade number and `updatedAt` set and its order number kept; a zero-row
update leaves the ledger untouched; and whenever control reaches the
update step the webhook acknowledges success, so a `paid` row is never
rewritten by this core. -/
theorem webhook_at_most_one_transition (n : Notif) (key : String)
    (now : DateTime) (l : Ledger) :
    ((webhookCore n key now l).2).length = l.length ∧
    (∀ i (d : Txn), i < l.length →
      ((webhookCore n key now l).2).getD i d ≠ l.getD i d →
        (l.getD i d).status = "pending" ∧
        (((webhookCore n key now l).2).getD i d).status = "paid" ∧
        (((webhookCore n key now l).2).getD i d).outTradeNo =
          (l.getD i d).outTradeNo ∧
        (((webhookCore n key now l).2).getD i d).tradeNo = some n.tradeNo ∧
        (((webhookCore n key now l).2).getD i d).updatedAt = now) ∧
    (∀ otn u, (condUpdatePaid l otn u).2 = 0 →
      (condUpdatePaid l otn u).1 = l) ∧
    (∀ t r, key ≠ "" → n.sign = expectedSign n key →
      n.tradeStatus = "TRADE_SUCCESS" →
      l.filter (fun x => x.outTradeNo == n.outTradeNo) = [t] →
      t.status ≠ "paid" → parseDecimal n.money = some r →
      ¬(amountTol < ratAbs (ratSub r t.money)) →
      (webhookCore n key now l).1 = success200) := by
  refine ⟨?_, ?_, ?_, ?_⟩
  · rcases webhookCore_cases n key now l with h | ⟨t, hf, hp, hk, hs, ht, hr, heq⟩
    · rw [h]
    · rw [heq]
      exact condUpdatePaid_length l n.outTradeNo _
  · intro i d hi hne
    rcases webhookCore_cases n key now l with h | ⟨t, hf, hp, hk, hs, ht, hr, heq⟩
    · rw [h] at hne
      exact absurd rfl hne
    · rw [heq] at hne ⊢
      simp only [getD_update_eq l n.outTradeNo _ i d hi] at hne ⊢
      by_cases hm : matchesPendingOtn n.outTradeNo (l.getD i d)
      · have hmm := (matchesPendingOtn_iff n.outTradeNo (l.getD i d)).mp hm
        rw [if_pos hm]
        exact ⟨hmm.2, applyUpdate_status _ _, applyUpdate_outTradeNo _ _,
          rfl, rfl⟩
      · rw [if_neg hm] at hne
        exact absurd rfl hne
  · intro otn u h
    exact condUpdatePaid_zero l otn u h
  · intro t r hkey hsign hts hf hpaid hr hamt
    unfold webhookCore
    rw [if_neg hkey, if_neg (by simp [hsign]), if_neg (by simp [hts]), hf]
    simp only [hr]
    rw [if_neg hpaid, if_neg hamt]

theorem webhook_at_most_one_transition_witness :
    ((webhookCore testNotif "secretkey" testDate [pendingTxn]).2).length = 1 ∧
    (webhookCore testNotif "secretkey" testDate [pendingTxn]).1 =
      success200 :=
  ⟨(webhook_at_most_one_transition testNotif "secretkey" testDate
      [pendingTxn]).1,
   (webhook_at_most_one_transition testNotif "secretkey" testDate
      [pendingTxn]).2.2.2 pendingTxn (mkRat 499 10) (by decide) rfl rfl
      (by decide) (by decide) (by decide) (by decide)⟩

/-- C2: when a verified success notification is reconciled for a
subscription order, the changed row's subscription window starts at the end
date of the user's most recent paid subscription whose end is strictly in
the future at evaluation time (or at `now` when none exists), ends one
calendar month later for a monthly period and one calendar year later for a
yearly one, and subscription dates change only on the row performing the
`pending` to `paid` transition, never before it. -/
theorem webhook_subscription_window (n : Notif) (key : String)
    (now : DateTime) (l : Ledger) :
    (∀ i (d : Txn) p, i < l.length →
      ((webhookCore n key now l).2).getD i d ≠ l.getD i d →
      (l.getD i d).isSubscription = true →
      (l.getD i d).subscriptionPeriod = some p →
      p = "monthly" ∨ p = "yearly" →
      ∃ s, IsLatestActiveEnd l ((l.getD i d).userId) now s ∧
        (((webhookCore n key now l).2).getD i d).subscriptionStartDate =
          some s ∧
        (((webhookCore n key now l).2).getD i d).subscriptionEndDate =
          some (if p = "monthly" then addOneMonth s else addOneYear s)) ∧
    (∀ i (d : Txn), i < l.length →
      ((((webhookCore n key now l).2).getD i d).subscriptionStartDate ≠
          (l.getD i d).subscriptionStartDate ∨
       (((webhookCore n key now l).2).getD i d).subscriptionEndDate ≠
          (l.getD i d).subscriptionEndDate) →
      (l.getD i d).status = "pending" ∧
        (((webhookCore n key now l).2).getD i d).status = "paid") := by
  constructor
  · intro i d p hi hne hsub hper hpmy
    rcases webhookCore_cases n key now l with h | ⟨t, hf, hp, hk, hs, ht, hr, heq⟩
    · rw [h] at hne
      exact absurd rfl hne
    · rw [heq] at hne ⊢
      simp only [getD_update_eq l n.outTradeNo _ i d hi] at hne ⊢
      by_cases hm : matchesPendingOtn n.outTradeNo (l.getD i d)
      · rw [if_pos hm] at hne ⊢
        have hmm := (matchesPendingOtn_iff n.outTradeNo (l.getD i d)).mp hm
        have hrow : l.getD i d = t := by
          apply filter_eq_singleton_unique hf _ (ledger_getD_mem l i d hi)
          simp only [beq_iff_eq]
          exact hmm.1
        set row := l.getD i d with hrowdef
        have hsubt : t.isSubscription = true := by
          rw [← hrow]
          exact hsub
        have hpert : t.subscriptionPeriod = some p := by
          rw [← hrow]
          exact hper
        have htruthy : periodTruthy t.subscriptionPeriod = true := by
          rw [hpert]
          rcases hpmy with h | h <;> simp [h, periodTruthy]
        refine ⟨(latestActiveSubEnd l t.userId now).getD now, ?_, ?_, ?_⟩
        · rw [hrow]
          exact latestActive_spec l t.userId now
        · simp [applyUpdate, mkUpdateData, hsubt, htruthy]
        · simp only [applyUpdate, mkUpdateData, hsubt, htruthy,
            Bool.and_self, if_pos]
          simp only [advancePeriod, hpert]
          rcases hpmy with h | h
          · subst h
            simp
          · subst h
            simp
      · rw [if_neg hm] at hne
        exact absurd rfl hne
  · intro i d hi hne
    rcases webhookCore_cases n key now l with h | ⟨t, hf, hp, hk, hs, ht, hr, heq⟩
    · rw [h] at hne
      rcases hne with h1 | h1 <;> exact absurd rfl h1
    · rw [heq] at hne ⊢
      simp only [getD_update_eq l n.outTradeNo _ i d hi] at hne ⊢
      by_cases hm : matchesPendingOtn n.outTradeNo (l.getD i d)
      · rw [if_pos hm]
        have hmm := (matchesPendingOtn_iff n.outTradeNo (l.getD i d)).mp hm
        exact ⟨hmm.2, applyUpdate_status _ _⟩
      · rw [if_neg hm] at hne
        rcases hne with h1 | h1 <;> exact absurd rfl h1

set_option maxRecDepth 1000000 in
theorem webhook_subscription_window_witness :
    ∃ s, IsLatestActiveEnd [subPendingTxn, paidSubTxn] subPendingTxn.userId
        testDate s ∧
      (((webhookCore subNotif "secretkey" testDate
          [subPendingTxn, paidSubTxn]).2).getD 0
            subPendingTxn).subscriptionStartDate = some s ∧
      (((webhookCore subNotif "secretkey" testDate
          [subPendingTxn, paidSubTxn]).2).getD 0
            subPendingTxn).subscriptionEndDate =
        some (if "monthly" = "monthly" then addOneMonth s
          else addOneYear s) :=
  (webhook_subscription_window subNotif "secretkey" testDate
      [subPendingTxn, paidSubTxn]).1 0 subPendingTxn "monthly" (by decide)
    (by decide) (by decide) (by decide) (Or.inl rfl)

/-- C4: the webhook accepts a notification whose amount differs from the
stored amount by at most 0.001 (acknowledging success) and rejects one
whose amount differs by more than 0.001 with no ledger mutation; the
comparison is this absolute tolerance (`ratAbs (ratSub r q)` is exactly
`|r - q|` and `amountTol` is exactly `1/1000`), not exact equality. -/
theorem webhook_amount_tolerance (n : Notif) (key : String) (now : DateTime)
    (l : Ledger) (t : Txn) (r : ℚ) (hkey : key ≠ "")
    (hsign : n.sign = expectedSign n key)
    (hts : n.tradeStatus = "TRADE_SUCCESS")
    (hf : l.filter (fun x => x.outTradeNo == n.outTradeNo) = [t])
    (hpaid : t.status ≠ "paid") (hr : parseDecimal n.money = some r) :
    (ratAbs (ratSub r t.money) ≤ amountTol →
      (webhookCore n key now l).1 = success200) ∧
    (amountTol < ratAbs (ratSub r t.money) →
      webhookCore n key now l = (⟨"金额不匹配", 400⟩, l)) ∧
    (∀ a b : ℚ, ratAbs (ratSub a b) = |a - b|) ∧
    amountTol = 1 / 1000 := by
  refine ⟨?_, ?_, ?_, amountTol_eq⟩
  · intro hle
    unfold webhookCore
    rw [if_neg hkey, if_neg (by simp [hsign]), if_neg (by simp [hts]), hf]
    simp only [hr]
    rw [if_neg hpaid, if_neg (not_lt.mpr hle)]
  · intro hgt
    unfold webhookCore
    rw [if_neg hkey, if_neg (by simp [hsign]), if_neg (by simp [hts]), hf]
    simp only [hr]
    rw [if_neg hpaid, if_pos hgt]
  · intro a b
    rw [ratSub_eq, ratAbs_eq]

theorem webhook_amount_tolerance_witness :
    (webhookCore testNotif "secretkey" testDate [pendingTxn]).1 =
      success200 :=
  (webhook_amount_tolerance testNotif "secretkey" testDate [pendingTxn]
      pendingTxn (mkRat 499 10) (by decide) rfl rfl (by decide) (by decide)
      (by decide)).1 (by decide)

/-- C5: if the order referenced by a verified success notification is
already `paid` when the webhook reads it, the webhook acknowledges success
with no write; and reconciling the same notification again after a call
that changed the ledger is a success acknowledgment that changes nothing,
so two reconciliations yield exactly one transition and identical
subscription dates. -/
theorem webhook_idempotent_replay (n : Notif) (key : String) (now : DateTime)
    (l : Ledger) :
    (∀ t, key ≠ "" → n.sign = expectedSign n key →
      n.tradeStatus = "TRADE_SUCCESS" →
      l.filter (fun x => x.outTradeNo == n.outTradeNo) = [t] →
      t.status = "paid" → webhookCore n key now l = (success200, l)) ∧
    (∀ now2, (webhookCore n key now l).2 ≠ l →
      webhookCore n key now2 ((webhookCore n key now l).2) =
        (success200, (webhookCore n key now l).2)) := by
  constructor
  · intro t hkey hsign hts hf hpaid
    unfold webhookCore
    rw [if_neg hkey, if_neg (by simp [hsign]), if_neg (by simp [hts]), hf]
    simp only [if_pos hpaid]
  · intro now2 hne
    rcases webhookCore_cases n key now l with h | ⟨t, hf, hp, hk, hs, ht, hr, heq⟩
    · exact absurd h hne
    · rw [heq] at hne ⊢
      simp only at hne ⊢
      set u := mkUpdateData n t now l with hu
      have hex : ∃ x ∈ l, matchesPendingOtn n.outTradeNo x = true := by
        by_contra hno
        push_neg at hno
        have : (condUpdatePaid l n.outTradeNo u).1 = l :=
          condUpdatePaid_id (fun x hx => by
            have := hno x hx
            simpa using this)
        exact hne this
      obtain ⟨x, hx, hmx⟩ := hex
      have hxeq : x = t := by
        apply filter_eq_singleton_unique hf x hx
        have := (matchesPendingOtn_iff _ _).mp hmx
        simp [this.1]
      subst hxeq
      have hmt : matchesPendingOtn n.outTradeNo x = true := hmx
      unfold webhookCore
      rw [if_neg hk, if_neg (by simp [hs]), if_neg (by simp [ht]),
        condUpdatePaid_filter_otn, hf]
      simp only [List.map_cons, List.map_nil, if_pos hmt]
      rw [if_pos (applyUpdate_status _ _)]

set_option maxRecDepth 1000000 in
theorem webhook_idempotent_replay_witness :
    webhookCore testNotif "secretkey" testDate2
        ((webhookCore testNotif "secretkey" testDate [pendingTxn]).2) =
      (success200, (webhookCore testNotif "secretkey" testDate
        [pendingTxn]).2) :=
  (webhook_idempotent_replay testNotif "secretkey" testDate [pendingTxn]).2
    testDate2 (by decide)

/-- C6: a signature mismatch, a missing order, or an amount mismatch each
produce a status-400 rejection with the ledger unchanged, while a
notification whose trade status is not the success sentinel produces a
success acknowledgment with the ledger unchanged. -/
theorem webhook_failure_semantics (n : Notif) (key : String) (now : DateTime)
    (l : Ledger) :
    (key ≠ "" → n.sign ≠ expectedSign n key →
      webhookCore n key now l = (⟨"签名验证失败", 400⟩, l)) ∧
    (key ≠ "" → n.sign = expectedSign n key →
      n.tradeStatus ≠ "TRADE_SUCCESS" →
      webhookCore n key now l = (success200, l)) ∧
    (key ≠ "" → n.sign = expectedSign n key →
      n.tradeStatus = "TRADE_SUCCESS" →
      l.filter (fun x => x.outTradeNo == n.outTradeNo) = [] →
      webhookCore n key now l = (⟨"订单不存在", 400⟩, l)) ∧
    (∀ t, key ≠ "" → n.sign = expectedSign n key →
      n.tradeStatus = "TRADE_SUCCESS" →
      l.filter (fun x => x.outTradeNo == n.outTradeNo) = [t] →
      t.status ≠ "paid" →
      (parseDecimal n.money = none ∨
        (∃ r, parseDecimal n.money = some r ∧
          amountTol < ratAbs (ratSub r t.money))) →
      webhookCore n key now l = (⟨"金额不匹配", 400⟩, l)) := by
  refine ⟨?_, ?_, ?_, ?_⟩
  · intro hkey hsign
    unfold webhookCore
    rw [if_neg hkey, if_pos hsign]
  · intro hkey hsign hts
    unfold webhookCore
    rw [if_neg hkey, if_neg (by simp [hsign]), if_pos hts]
  · intro hkey hsign hts hf
    unfold webhookCore
    rw [if_neg hkey, if_neg (by simp [hsign]), if_neg (by simp [hts]), hf]
  · intro t hkey hsign hts hf hpaid hbad
    unfold webhookCore
    rw [if_neg hkey, if_neg (by simp [hsign]), if_neg (by simp [hts]), hf]
    rcases hbad with hnone | ⟨r, hr, hgt⟩
    · simp only [hnone]
      rw [if_neg hpaid]
    · simp only [hr]
      rw [if_neg hpaid, if_pos hgt]

theorem webhook_failure_semantics_witness :
    webhookCore baseNotif "secretkey" testDate [pendingTxn] =
      (⟨"签名验证失败", 400⟩, [pendingTxn]) :=
  (webhook_failure_semantics baseNotif "secretkey" testDate [pendingTxn]).1
    (by decide) (by decide)

/-- C10: the webhook reads at most the eight fixed notification fields and
`sign` from the query string: two requests that agree on `pid`, `name`,
`money`, `out_trade_no`, `trade_no`, `param`, `trade_status`, `type` and
`sign` produce identical acknowledgments and identical ledgers, whatever
other query parameters they carry. -/
theorem webhook_fixed_field_set (q1 q2 : String → Option String)
    (key : String) (now : DateTime) (l : Ledger)
    (h : ∀ k ∈ ["pid", "name", "money", "out_trade_no", "trade_no", "param",
      "trade_status", "type", "sign"], q1 k = q2 k) :
    webhookGet q1 key now l = webhookGet q2 key now l := by
  have hq : notifOfQuery q1 = notifOfQuery q2 := by
    simp only [notifOfQuery]
    rw [h "pid" (by simp), h "name" (by simp), h "money" (by simp),
      h "out_trade_no" (by simp), h "trade_no" (by simp),
      h "param" (by simp), h "trade_status" (by simp), h "type" (by simp),
      h "sign" (by simp)]
  simp [webhookGet, hq]

theorem webhook_fixed_field_set_witness :
    webhookGet (fun k => if k = "foo" then some "1" else none) "k" testDate
        [] =
      webhookGet (fun _ => none) "k" testDate [] :=
  webhook_fixed_field_set _ _ "k" testDate [] (by decide)

/-- C7 counterexample: with a pending order already holding the generated
order number, the issuer returns the 500 "order creation failed" error and
leaves the ledger unchanged — it does not retry with a fresh order number
and does not succeed, contrary to the claim. -/
theorem issuer_no_retry_counterexample :
    issuerPost (some "u2") "basic-onetime" "alipay" testCatalog testCfg
        "20250401000000123" testDate [pendingTxn] =
      (.err "创建订单失败，请稍后重试" 500, [pendingTxn]) := by
  rfl

/-- C7 amended: when the issuer's insert collides on the order number, the
failure is surfaced to the caller as a 500 error with no ledger change (no
retry with a fresh number occurs inside the issuer); without a collision
exactly one pending order row is appended. -/
theorem issuer_collision_amended (user : Option String)
    (productId payType : String) (catalog : String → Option Product)
    (cfg : ZpayConfig) (otn : String) (now : DateTime) (l : Ledger)
    (uid : String) (p : Product) (huser : user = some uid)
    (hpay : payType = "alipay" ∨ payType = "wxpay")
    (hcat : catalog productId = some p) (hpid : cfg.pid ≠ "")
    (hkey : cfg.key ≠ "") (hurl : cfg.baseUrl ≠ "") :
    ((∃ t ∈ l, t.outTradeNo = otn) →
      issuerPost user productId payType catalog cfg otn now l =
        (.err "创建订单失败，请稍后重试" 500, l)) ∧
    ((∀ t ∈ l, t.outTradeNo ≠ otn) →
      issuerPost user productId payType catalog cfg otn now l =
        (.ok (withSign (issuerParams cfg p.price p.name payType otn) cfg.key),
         l ++ [newTxn uid productId p otn payType now])) := by
  subst huser
  have hpayv : ¬(payType ≠ "alipay" ∧ payType ≠ "wxpay") := by
    rcases hpay with h | h <;> simp [h]
  have hcfg : ¬(cfg.pid = "" ∨ cfg.key = "" ∨ cfg.baseUrl = "") := by
    simp [hpid, hkey, hurl]
  constructor
  · rintro ⟨t, ht, heq⟩
    have hany : l.any (fun t => t.outTradeNo == otn) = true :=
      List.any_eq_true.mpr ⟨t, ht, by simp [heq]⟩
    unfold issuerPost
    dsimp only []
    rw [if_neg hpayv, hcat]
    simp only []
    rw [if_neg hcfg, if_pos hany]
  · intro hnone
    have hany : l.any (fun t => t.outTradeNo == otn) = false := by
      rw [List.any_eq_false]
      intro t ht
      simp [hnone t ht]
    unfold issuerPost
    dsimp only []
    rw [if_neg hpayv, hcat]
    simp only []
    rw [if_neg hcfg, if_neg (by simp [hany])]

theorem issuer_collision_amended_witness :
    issuerPost (some "u2") "basic-onetime" "alipay" testCatalog testCfg
        "20250401000000999" testDate [] =
      (.ok (withSign (issuerParams testCfg testProduct.price testProduct.name
          "alipay" "20250401000000999") testCfg.key),
       [newTxn "u2" "basic-onetime" testProduct "20250401000000999" "alipay"
          testDate]) :=
  (issuer_collision_amended (some "u2") "basic-onetime" "alipay" testCatalog
      testCfg "20250401000000999" testDate [] "u2" testProduct rfl
      (Or.inl rfl) rfl (by decide) (by decide) (by decide)).2 (by simp)

/-- C8: a regeneration request for an order that is not owned by the
caller or is not `pending` gets the one fixed not-found response (the same
response whatever the reason, so a paid or foreign order is never reported
as "already paid" distinctly); for the caller's own pending order the
signed parameter set is rebuilt from the stored row alone and the
regenerated link carries the stored order number. -/
theorem repay_scoping_and_rebuild (uid o : String) (cfg : ZpayConfig)
    (l : Ledger) :
    (o ≠ "" →
      l.filter (fun t => t.userId == uid && t.outTradeNo == o &&
        t.status == "pending") = [] →
      repayPost (some uid) (some o) cfg l =
        .err "订单不存在或已支付" 404) ∧
    (∀ t, o ≠ "" →
      l.filter (fun t => t.userId == uid && t.outTradeNo == o &&
        t.status == "pending") = [t] →
      cfg.pid ≠ "" → cfg.key ≠ "" → cfg.baseUrl ≠ "" →
      repayPost (some uid) (some o) cfg l =
        .ok (withSign (issuerParams cfg (renderMoney t.money) t.name t.type
          t.outTradeNo) cfg.key) ∧
      (issuerParams cfg (renderMoney t.money) t.name t.type
        t.outTradeNo).lookup "out_trade_no" = some t.outTradeNo ∧
      t.userId = uid ∧ t.status = "pending" ∧ t.outTradeNo = o) := by
  constructor
  · intro ho hf
    unfold repayPost
    dsimp only []
    rw [if_neg ho, hf]
  · intro t ho hf hpid hkey hurl
    have hcfg : ¬(cfg.pid = "" ∨ cfg.key = "" ∨ cfg.baseUrl = "") := by
      simp [hpid, hkey, hurl]
    have htmem : t ∈ l.filter (fun t => t.userId == uid &&
        t.outTradeNo == o && t.status == "pending") := by
      rw [hf]
      exact List.mem_cons_self t []
    have htp := (List.mem_filter.mp htmem).2
    simp only [Bool.and_eq_true, beq_iff_eq] at htp
    refine ⟨?_, rfl, htp.1.1, htp.2, htp.1.2⟩
    unfold repayPost
    dsimp only []
    rw [if_neg ho, hf]
    simp only []
    rw [if_neg hcfg]

theorem repay_scoping_and_rebuild_witness :
    repayPost (some "u1") (some "20250401000000123") testCfg [pendingTxn] =
      .ok (withSign (issuerParams testCfg (renderMoney pendingTxn.money)
        pendingTxn.name pendingTxn.type pendingTxn.outTradeNo)
        testCfg.key) :=
  ((repay_scoping_and_rebuild "u1" "20250401000000123" testCfg
      [pendingTxn]).2 pendingTxn (by decide) (by decide) (by decide)
      (by decide) (by decide)).1

lemma natListLt_irrefl : ∀ x : List Nat, natListLt x x = false
  | [] => rfl
  | a :: as => by
    simp only [natListLt]
    rw [if_neg (lt_irrefl a), if_neg (lt_irrefl a)]
    exact natListLt_irrefl as

lemma natListLt_asymm :
    ∀ x y : List Nat, natListLt x y = true → natListLt y x = false
  | [], y => by
    intro h
    cases y with
    | nil => simp [natListLt] at h
    | cons b bs => rfl
  | _ :: _, [] => by simp [natListLt]
  | a :: as, b :: bs => by
    simp only [natListLt]
    by_cases hab : a < b
    · intro _
      rw [if_neg (by omega : ¬ b < a), if_pos hab]
    · by_cases hba : b < a
      · rw [if_neg hab, if_pos hba]
        intro h
        cases h
      · rw [if_neg hab, if_neg hba, if_neg hba, if_neg hab]
        exact natListLt_asymm as bs

lemma natListLt_trans :
    ∀ x y z : List Nat, natListLt x y = true → natListLt y z = true →
      natListLt x z = true
  | [], y, z => by
    intro h1 h2
    cases z with
    | nil =>
      cases y with
      | nil => exact h1
      | cons b bs => simp [natListLt] at h2
    | cons c cs => rfl
  | _ :: _, [], _ => by
    intro h1 _
    simp [natListLt] at h1
  | _ :: _, _ :: _, [] => by
    intro _ h2
    simp [natListLt] at h2
  | a :: as, b :: bs, c :: cs => by
    simp only [natListLt]
    by_cases hab : a < b
    · by_cases hbc : b < c
      · intro _ _
        rw [if_pos (by omega : a < c)]
      · by_cases hcb : c < b
        · rw [if_neg hbc, if_pos hcb]
          intro _ h
          cases h
        · have : b = c := by omega
          subst this
          intro _ _
          rw [if_pos hab]
    · by_cases hba : b < a
      · rw [if_neg hab, if_pos hba]
        intro h
        cases h
      · have hab2 : a = b := by omega
        subst hab2
        rw [if_neg hab, if_neg hba]
        by_cases hac : a < c
        · intro _ _
          rw [if_pos hac]
        · by_cases hca : c < a
          · rw [if_neg hac, if_pos hca]
            intro _ h
            cases h
          · rw [if_neg hac, if_neg hca, if_neg hac, if_neg hca]
            exact natListLt_trans as bs cs

lemma natListLt_cases :
    ∀ x y : List Nat, natListLt x y = true ∨ x = y ∨ natListLt y x = true
  | [], [] => Or.inr (Or.inl rfl)
  | [], _ :: _ => Or.inl rfl
  | _ :: _, [] => Or.inr (Or.inr rfl)
  | a :: as, b :: bs => by
    simp only [natListLt]
    by_cases hab : a < b
    · exact Or.inl (by rw [if_pos hab])
    · by_cases hba : b < a
      · exact Or.inr (Or.inr (by rw [if_pos hba]))
      · have : a = b := by omega
        subst this
        rcases natListLt_cases as bs with h | h | h
        · exact Or.inl (by rw [if_neg hab, if_neg hab]; exact h)
        · exact Or.inr (Or.inl (by rw [h]))
        · refine Or.inr (Or.inr ?_)
          rw [if_neg hab, if_neg hab]
          exact h

lemma localeLt_asymm (s t : String) (h : localeLt s t = true) :
    localeLt t s = false := by
  unfold localeLt at h ⊢
  rcases (Bool.or_eq_true _ _).mp h with hp | hpc
  · have h1 : natListLt (primKey t) (primKey s) = false :=
      natListLt_asymm _ _ hp
    have h2 : (primKey t == primKey s) = false := by
      rw [beq_eq_false_iff_ne]
      intro he
      rw [he] at hp
      rw [natListLt_irrefl] at hp
      cases hp
    simp [h1, h2]
  · rcases (Bool.and_eq_true _ _).mp hpc with ⟨hpe, hc⟩
    have hpe2 : primKey s = primKey t := beq_iff_eq.mp hpe
    have h1 : natListLt (primKey t) (primKey s) = false := by
      rw [hpe2, natListLt_irrefl]
    have h3 : natListLt (caseKey t) (caseKey s) = false :=
      natListLt_asymm _ _ hc
    simp [h1, h3]

lemma localeLt_false_trans (s t u : String) (h1 : localeLt t s = false)
    (h2 : localeLt u t = false) : localeLt u s = false := by
  unfold localeLt at h1 h2 ⊢
  rw [Bool.or_eq_false_iff] at h1 h2
  rw [Bool.or_eq_false_iff]
  obtain ⟨h1a, h1b⟩ := h1
  obtain ⟨h2a, h2b⟩ := h2
  have hst : natListLt (primKey s) (primKey t) = true ∨
      primKey s = primKey t := by
    rcases natListLt_cases (primKey s) (primKey t) with h | h | h
    · exact Or.inl h
    · exact Or.inr h
    · rw [h] at h1a
      cases h1a
  have htu : natListLt (primKey t) (primKey u) = true ∨
      primKey t = primKey u := by
    rcases natListLt_cases (primKey t) (primKey u) with h | h | h
    · exact Or.inl h
    · exact Or.inr h
    · rw [h] at h2a
      cases h2a
  have hsu : natListLt (primKey s) (primKey u) = true ∨
      primKey s = primKey u := by
    rcases hst with h | h <;> rcases htu with h3 | h3
    · exact Or.inl (natListLt_trans _ _ _ h h3)
    · exact Or.inl (h3 ▸ h)
    · exact Or.inl (h ▸ h3)
    · exact Or.inr (h.trans h3)
  constructor
  · rcases hsu with h | h
    · exact natListLt_asymm _ _ h
    · rw [← h, natListLt_irrefl]
  · by_cases hbe : (primKey u == primKey s) = true
    · have hue : primKey u = primKey s := beq_iff_eq.mp hbe
      have hpst : primKey s = primKey t := by
        rcases hst with h | h
        · exfalso
          rcases htu with h3 | h3
          · have hx := natListLt_trans _ _ _ h h3
            rw [hue] at hx
            rw [natListLt_irrefl] at hx
            cases hx
          · rw [h3, hue] at h
            rw [natListLt_irrefl] at h
            cases h
        · exact h
      have hptu : primKey t = primKey u := by
        rw [← hpst, ← hue]
      have h1c : natListLt (caseKey t) (caseKey s) = false := by
        have hb : (primKey t == primKey s) = true := beq_iff_eq.mpr hpst.symm
        rw [hb] at h1b
        simpa using h1b
      have h2c : natListLt (caseKey u) (caseKey t) = false := by
        have hb : (primKey u == primKey t) = true := beq_iff_eq.mpr hptu.symm
        rw [hb] at h2b
        simpa using h2b
      rw [hbe]
      simp only [Bool.true_and]
      rcases natListLt_cases (caseKey u) (caseKey s) with h | h | h
      · exfalso
        have hst2 : natListLt (caseKey s) (caseKey t) = true ∨
            caseKey s = caseKey t := by
          rcases natListLt_cases (caseKey s) (caseKey t) with hx | hx | hx
          · exact Or.inl hx
          · exact Or.inr hx
          · rw [hx] at h1c
            cases h1c
        have htu2 : natListLt (caseKey t) (caseKey u) = true ∨
            caseKey t = caseKey u := by
          rcases natListLt_cases (caseKey t) (caseKey u) with hx | hx | hx
          · exact Or.inl hx
          · exact Or.inr hx
          · rw [hx] at h2c
            cases h2c
        have hsu2 : natListLt (caseKey s) (caseKey u) = true ∨
            caseKey s = caseKey u := by
          rcases hst2 with hx | hx <;> rcases htu2 with hy | hy
          · exact Or.inl (natListLt_trans _ _ _ hx hy)
          · exact Or.inl (hy ▸ hx)
          · exact Or.inl (hx ▸ hy)
          · exact Or.inr (hx.trans hy)
        rcases hsu2 with hx | hx
        · have hy := natListLt_asymm _ _ hx
          rw [hy] at h
          cases h
        · rw [← hx] at h
          rw [natListLt_irrefl] at h
          cases h
      · rw [h, natListLt_irrefl]
      · exact natListLt_asymm _ _ h
    · simp only [Bool.not_eq_true] at hbe
      rw [hbe]
      simp

instance : IsTotal (String × String) localeKeyLe :=
  ⟨fun a b => by
    unfold localeKeyLe
    by_cases h : localeLt b.1 a.1 = true
    · exact Or.inr (localeLt_asymm _ _ h)
    · exact Or.inl (Bool.not_eq_true _ ▸ h)⟩

instance : IsTrans (String × String) localeKeyLe :=
  ⟨fun a b c h1 h2 => localeLt_false_trans a.1 b.1 c.1 h1 h2⟩

lemma signEntriesLocale_sorted (ps : List (String × String)) :
    (signEntriesLocale ps).Pairwise localeKeyLe :=
  List.sorted_insertionSort localeKeyLe (ps.filter keepParam)

lemma signEntriesLocale_perm (ps : List (String × String)) :
    (signEntriesLocale ps).Perm (ps.filter keepParam) :=
  List.perm_insertionSort localeKeyLe (ps.filter keepParam)

lemma signEntriesLocale_cons_sign (p : List (String × String)) (v : String) :
    signEntriesLocale (("sign", v) :: p) = signEntriesLocale p := by
  simp [signEntriesLocale, List.filter_cons, keepParam]

lemma signEntriesLocale_cons_signType (p : List (String × String))
    (v : String) :
    signEntriesLocale (("sign_type", v) :: p) = signEntriesLocale p := by
  simp [signEntriesLocale, List.filter_cons, keepParam]

lemma signEntriesLocale_cons_empty (p : List (String × String))
    (k : String) :
    signEntriesLocale ((k, "") :: p) = signEntriesLocale p := by
  simp [signEntriesLocale, List.filter_cons, keepParam]

lemma flatMap_id_of (f : Char → List Char) :
    ∀ l : List Char, (∀ c ∈ l, f c = [c]) → l.flatMap f = l
  | [], _ => rfl
  | c :: cs, h => by
    simp only [List.flatMap_cons]
    rw [h c (List.mem_cons_self c cs),
      flatMap_id_of f cs (fun x hx => h x (List.mem_cons_of_mem c hx))]
    rfl

lemma nfd_plain {s : String} (h : PlainKey s) : nfd s = s.data := by
  unfold nfd
  apply flatMap_id_of
  intro c hc
  have hp := h c hc
  unfold nfdChar
  rcases hp with hp | hp <;> rw [if_neg (by omega)]

lemma collPrim_ne_zero_of_plain {c : Char} (h : plainChar c) :
    collPrim c ≠ 0 := by
  unfold collPrim
  rcases h with h | h <;> split_ifs <;> omega

lemma primKey_plain {s : String} (h : PlainKey s) :
    primKey s = s.data.map collPrim := by
  unfold primKey
  rw [nfd_plain h]
  apply List.filter_eq_self.mpr
  intro w hw
  rcases List.mem_map.mp hw with ⟨c, hc, hcw⟩
  subst hcw
  simpa using collPrim_ne_zero_of_plain (h c hc)

lemma caseKey_plain {s : String} (h : PlainKey s) :
    caseKey s = s.data.map (fun _ => 0) := by
  unfold caseKey
  rw [nfd_plain h]
  apply List.map_congr_left
  intro c hc
  have hp := h c hc
  unfold collCase
  rcases hp with hp | hp <;> rw [if_neg (by omega)]

lemma char_lt_iff {c d : Char} : c < d ↔ c.toNat < d.toNat := by
  simp only [Char.lt_iff_val_lt_val, UInt32.lt_def, BitVec.lt_def]
  exact Iff.rfl

lemma collPrim_lt_iff {c d : Char} (hc : plainChar c) (hd : plainChar d) :
    collPrim c < collPrim d ↔ c < d := by
  rw [char_lt_iff]
  unfold collPrim
  rcases hc with hc | hc <;> rcases hd with hd | hd <;>
    split_ifs <;> omega

lemma collPrim_inj {c d : Char} (hc : plainChar c) (hd : plainChar d)
    (h : collPrim c = collPrim d) : c = d := by
  by_contra hne
  rcases lt_or_gt_of_ne hne with hlt | hlt
  · have := (collPrim_lt_iff hc hd).mpr hlt
    omega
  · have := (collPrim_lt_iff hd hc).mpr hlt
    omega

lemma map_collPrim_inj :
    ∀ cs ds : List Char, (∀ c ∈ cs, plainChar c) → (∀ c ∈ ds, plainChar c) →
      cs.map collPrim = ds.map collPrim → cs = ds
  | [], [], _, _, _ => rfl
  | [], _ :: _, _, _, h => by cases h
  | _ :: _, [], _, _, h => by cases h
  | c :: cs, d :: ds, hcs, hds, h => by
    simp only [List.map_cons, List.cons.injEq] at h
    have h1 := collPrim_inj (hcs c (List.mem_cons_self c cs))
      (hds d (List.mem_cons_self d ds)) h.1
    rw [h1, map_collPrim_inj cs ds
      (fun x hx => hcs x (List.mem_cons_of_mem c hx))
      (fun x hx => hds x (List.mem_cons_of_mem d hx)) h.2]

lemma charsLe_refl : ∀ cs : List Char, charsLe cs cs = true
  | [] => rfl
  | c :: cs => by
    simp only [charsLe]
    rw [if_neg (lt_irrefl c), if_neg (lt_irrefl c)]
    exact charsLe_refl cs

lemma natListLt_collPrim_iff :
    ∀ cs ds : List Char, (∀ c ∈ cs, plainChar c) → (∀ c ∈ ds, plainChar c) →
      ((natListLt (ds.map collPrim) (cs.map collPrim) = false) ↔
        charsLe cs ds = true)
  | [], ds, _, _ => by
    cases ds with
    | nil => simp [natListLt, charsLe]
    | cons d ds => simp [natListLt, charsLe]
  | c :: cs, [], _, _ => by
    simp [natListLt, charsLe]
  | c :: cs, d :: ds, hcs, hds => by
    have hc := hcs c (List.mem_cons_self c cs)
    have hd := hds d (List.mem_cons_self d ds)
    simp only [List.map_cons, natListLt, charsLe]
    by_cases hcd : c < d
    · rw [if_pos hcd, if_neg (by
        rw [collPrim_lt_iff hd hc]
        exact fun h => absurd hcd (lt_asymm h)),
        if_pos ((collPrim_lt_iff hc hd).mpr hcd)]
      simp
    · by_cases hdc : d < c
      · rw [if_neg hcd, if_pos hdc, if_pos ((collPrim_lt_iff hd hc).mpr hdc)]
        simp
      · have he : c = d := le_antisymm (le_of_not_lt hdc) (le_of_not_lt hcd)
        subst he
        rw [if_neg hcd, if_neg hdc, if_neg (by
          rw [collPrim_lt_iff hc hc]
          exact lt_irrefl c), if_neg (by
          rw [collPrim_lt_iff hc hc]
          exact lt_irrefl c)]
        exact natListLt_collPrim_iff cs ds
          (fun x hx => hcs x (List.mem_cons_of_mem c hx))
          (fun x hx => hds x (List.mem_cons_of_mem c hx))

lemma localeKeyLe_iff_keyLe {a b : String × String} (ha : PlainKey a.1)
    (hb : PlainKey b.1) : localeKeyLe a b ↔ keyLe a b := by
  unfold localeKeyLe keyLe localeLt
  rw [primKey_plain ha, primKey_plain hb, caseKey_plain ha, caseKey_plain hb]
  by_cases hbe : b.1.data.map collPrim = a.1.data.map collPrim
  · have hdata : b.1.data = a.1.data := map_collPrim_inj _ _ hb ha hbe
    rw [hbe, hdata, natListLt_irrefl, natListLt_irrefl]
    simp only [Bool.and_false, Bool.or_false]
    constructor
    · intro _
      exact charsLe_refl a.1.data
    · intro _
      trivial
  · have hbeq : (b.1.data.map collPrim == a.1.data.map collPrim) = false := by
      rw [beq_eq_false_iff_ne]
      exact hbe
    rw [hbeq]
    simp only [Bool.false_and, Bool.or_false]
    exact natListLt_collPrim_iff a.1.data b.1.data ha hb

lemma orderedInsert_congr {r s : (String × String) → (String × String) → Prop}
    [DecidableRel r] [DecidableRel s] (a : String × String) :
    ∀ L : List (String × String), (∀ b ∈ L, (r a b ↔ s a b)) →
      List.orderedInsert r a L = List.orderedInsert s a L
  | [], _ => rfl
  | b :: bs, h => by
    simp only [List.orderedInsert]
    by_cases hr : r a b
    · rw [if_pos hr, if_pos ((h b (List.mem_cons_self b bs)).mp hr)]
    · rw [if_neg hr,
        if_neg (fun hs => hr ((h b (List.mem_cons_self b bs)).mpr hs)),
        orderedInsert_congr a bs (fun x hx => h x (List.mem_cons_of_mem b hx))]

lemma insertionSort_congr
    {r s : (String × String) → (String × String) → Prop}
    [DecidableRel r] [DecidableRel s] :
    ∀ l : List (String × String),
      (∀ a ∈ l, ∀ b ∈ l, (r a b ↔ s a b)) →
      List.insertionSort r l = List.insertionSort s l
  | [], _ => rfl
  | a :: l, h => by
    simp only [List.insertionSort]
    rw [insertionSort_congr l (fun x hx y hy =>
      h x (List.mem_cons_of_mem a hx) y (List.mem_cons_of_mem a hy))]
    apply orderedInsert_congr
    intro b hb
    have hbl : b ∈ l := (List.perm_insertionSort s l).mem_iff.mp hb
    exact h a (List.mem_cons_self a l) b (List.mem_cons_of_mem a hbl)

lemma signEntriesLocale_eq_plain {ps : List (String × String)}
    (h : ∀ kv ∈ ps, PlainKey kv.1) :
    signEntriesLocale ps = signEntries ps := by
  unfold signEntriesLocale signEntries
  apply insertionSort_congr
  intro a ha b hb
  exact localeKeyLe_iff_keyLe (h a (List.mem_of_mem_filter ha))
    (h b (List.mem_of_mem_filter hb))

lemma zpaySignLocale_eq_plain {ps : List (String × String)} (key : String)
    (h : ∀ kv ∈ ps, PlainKey kv.1) :
    zpaySignLocale ps key = zpaySign ps key := by
  unfold zpaySignLocale zpaySign getVerifyParamsLocale getVerifyParams
  rw [signEntriesLocale_eq_plain h]

lemma buildVerifyList_plain (n : Notif) :
    ∀ kv ∈ buildVerifyList n, PlainKey kv.1 := by
  intro kv hkv
  unfold buildVerifyList at hkv
  simp only [List.mem_append] at hkv
  rcases hkv with ((((((h | h) | h) | h) | h) | h) | h) | h <;>
    (split at h
     · simp only [List.mem_singleton] at h
       subst h
       first
         | exact (by decide : PlainKey "pid")
         | exact (by decide : PlainKey "name")
         | exact (by decide : PlainKey "money")
         | exact (by decide : PlainKey "out_trade_no")
         | exact (by decide : PlainKey "trade_no")
         | exact (by decide : PlainKey "param")
         | exact (by decide : PlainKey "trade_status")
         | exact (by decide : PlainKey "type")
     · simp only [List.not_mem_nil] at h)

lemma expectedSign_locale (n : Notif) (key : String) :
    zpaySignLocale (buildVerifyList n) key = expectedSign n key :=
  zpaySignLocale_eq_plain key (buildVerifyList_plain n)

lemma issuerParams_plain (cfg : ZpayConfig) (price name payType otn : String) :
    ∀ kv ∈ issuerParams cfg price name payType otn, PlainKey kv.1 := by
  intro kv hkv
  unfold issuerParams at hkv
  simp only [List.mem_cons, List.not_mem_nil, or_false] at hkv
  rcases hkv with h | h | h | h | h | h | h <;>
    (subst h
     first
       | exact (by decide : PlainKey "pid")
       | exact (by decide : PlainKey "money")
       | exact (by decide : PlainKey "name")
       | exact (by decide : PlainKey "notify_url")
       | exact (by decide : PlainKey "out_trade_no")
       | exact (by decide : PlainKey "return_url")
       | exact (by decide : PlainKey "type"))

lemma issuerSign_locale (cfg : ZpayConfig)
    (price name payType otn key : String) :
    zpaySignLocale (issuerParams cfg price name payType otn) key =
      zpaySign (issuerParams cfg price name payType otn) key :=
  zpaySignLocale_eq_plain key (issuerParams_plain cfg price name payType otn)

set_option maxRecDepth 100000 in
/-- C3 counterexample: the signer does not sort by byte-wise (ASCII)
ascending key order.  The source sorts with `a[0].localeCompare(b[0])`
(ICU root collation): on the mapping `{B ↦ 1, a ↦ 2}` it places `a`
before `B`, although the UTF-8 bytes of `B` (0x42) are strictly below
those of `a` (0x61), so the byte-wise order would place `B` first. -/
theorem signing_not_bytewise_counterexample :
    getVerifyParamsLocale [("B", "1"), ("a", "2")] = "a=2&B=1" ∧
    List.Lex (· < ·) (utf8Bytes "B") (utf8Bytes "a") ∧
    getVerifyParams [("B", "1"), ("a", "2")] = "B=1&a=2" := by
  decide

/-- C3 (amended): for every mapping and secret the signer drops `sign`,
`sign_type` and empty-valued entries, sorts the kept entries by key in
the `localeCompare` (ICU root collation) order modelled by `localeKeyLe`,
joins them as `key=value` pairs with `&`, appends the secret with no
separator, and returns the lowercase hex MD5 of the UTF-8 bytes of that
string; when every key consists of lowercase basic-Latin letters and
underscores — as all the protocol field names of this program do — the
locale order agrees with byte-wise (ASCII) ascending order and the
signer agrees with the byte-wise signer. -/
theorem signing_pipeline_locale (ps : List (String × String)) (key : String) :
    zpaySignLocale ps key =
      md5Hex (utf8Bytes (String.intercalate "&"
        ((signEntriesLocale ps).map (fun kv => kv.1 ++ "=" ++ kv.2)) ++ key)) ∧
    (signEntriesLocale ps).Perm (ps.filter keepParam) ∧
    (∀ kv : String × String,
      keepParam kv = true ↔
        (kv.1 ≠ "sign" ∧ kv.1 ≠ "sign_type" ∧ kv.2 ≠ "")) ∧
    (signEntriesLocale ps).Pairwise localeKeyLe ∧
    ((∀ kv ∈ ps, PlainKey kv.1) →
      (signEntriesLocale ps).Pairwise (fun a b =>
        utf8Bytes a.1 = utf8Bytes b.1 ∨
          List.Lex (· < ·) (utf8Bytes a.1) (utf8Bytes b.1)) ∧
      zpaySignLocale ps key = zpaySign ps key) := by
  refine ⟨rfl, signEntriesLocale_perm ps, ?_, signEntriesLocale_sorted ps, ?_⟩
  · intro kv
    simp only [keepParam, Bool.and_eq_true, bne_iff_ne, ne_eq]
    tauto
  · intro h
    refine ⟨?_, zpaySignLocale_eq_plain key h⟩
    rw [signEntriesLocale_eq_plain h]
    exact (signEntries_sorted ps).imp keyLe_utf8

theorem signing_pipeline_locale_witness :
    zpaySignLocale [("b", "2"), ("a", "1")] "k" =
      zpaySign [("b", "2"), ("a", "1")] "k" :=
  ((signing_pipeline_locale [("b", "2"), ("a", "1")] "k").2.2.2.2
    (by decide)).2

set_option maxRecDepth 1000000 in
/-- C9 counterexample: the token is not invariant under reordering the
entries of a duplicate-free mapping.  `localeCompare` equates the
distinct keys `é` (U+00E9) and `e` + U+0301 (canonically equivalent
under ICU root collation), and JavaScript's stable sort keeps tied
entries in insertion order, so swapping the two entries changes the
concatenated string and hence the MD5 token. -/
theorem signature_reorder_counterexample :
    eAcuteNFC ≠ eAcuteNFD ∧
    ([(eAcuteNFC, "1"), (eAcuteNFD, "2")] : List (String × String)).Perm
      [(eAcuteNFD, "2"), (eAcuteNFC, "1")] ∧
    ([eAcuteNFC, eAcuteNFD] : List String).Nodup ∧
    zpaySignLocale [(eAcuteNFC, "1"), (eAcuteNFD, "2")] "k" ≠
      zpaySignLocale [(eAcuteNFD, "2"), (eAcuteNFC, "1")] "k" := by
  refine ⟨by decide, List.Perm.swap _ _ _, by decide, by decide⟩

/-- C9 (amended): the signature token is a deterministic function of the
entries of the mapping: signing the same mapping twice yields the same
token; reordering the entries of a duplicate-free mapping whose keys are
all lowercase basic-Latin letters and underscores — as all the protocol
field names of this program are — does not change the token; and adding
a `sign` entry, a `sign_type` entry, or an entry with an empty value
does not change the token. -/
theorem signature_determinism_locale (key : String) :
    (∀ ps : List (String × String),
      zpaySignLocale ps key = zpaySignLocale ps key) ∧
    (∀ p1 p2 : List (String × String), p1.Perm p2 →
      (∀ kv ∈ p1, PlainKey kv.1) → (p1.map Prod.fst).Nodup →
      zpaySignLocale p1 key = zpaySignLocale p2 key) ∧
    (∀ (p : List (String × String)) (v : String),
      zpaySignLocale (("sign", v) :: p) key = zpaySignLocale p key) ∧
    (∀ (p : List (String × String)) (v : String),
      zpaySignLocale (("sign_type", v) :: p) key = zpaySignLocale p key) ∧
    (∀ (p : List (String × String)) (k : String),
      zpaySignLocale ((k, "") :: p) key = zpaySignLocale p key) := by
  refine ⟨fun ps => rfl, ?_, ?_, ?_, ?_⟩
  · intro p1 p2 hperm hplain hnd
    have hplain2 : ∀ kv ∈ p2, PlainKey kv.1 := fun kv hkv =>
      hplain kv (hperm.mem_iff.mpr hkv)
    rw [zpaySignLocale_eq_plain key hplain,
      zpaySignLocale_eq_plain key hplain2]
    exact zpaySign_perm key hperm hnd
  · intro p v
    unfold zpaySignLocale getVerifyParamsLocale
    rw [signEntriesLocale_cons_sign]
  · intro p v
    unfold zpaySignLocale getVerifyParamsLocale
    rw [signEntriesLocale_cons_signType]
  · intro p k
    unfold zpaySignLocale getVerifyParamsLocale
    rw [signEntriesLocale_cons_empty]

theorem signature_determinism_locale_witness :
    zpaySignLocale [("a", "1"), ("b", "2")] "k" =
      zpaySignLocale [("b", "2"), ("a", "1")] "k" :=
  (signature_determinism_locale "k").2.1 [("a", "1"), ("b", "2")]
    [("b", "2"), ("a", "1")] (by decide) (by decide) (by decide)
